import Mathlib

/-!
Tic-Tac-Toe engine (`src/main.cpp`): a shallow embedding and its properties

The class `TicTacToe` keeps a `std::array<char, 10>` of which the cells `1..9`
are the playing field (cell `0` is never written by the constructor), the flag
`isPlayer1Turn` and the flag `isSinglePlayer`.  The member functions are
translated one by one; console input and output are left out, the two
`std::shuffle` calls of `getComputerMove` become two arguments holding the
shuffled arrays.
-/

namespace TicTacToeGame

set_option linter.dupNamespace false

/-! ## Data model -/

/-- The member `std::array<char, 10> board`: ten cells, indexed `0..9`. -/
abbrev Board := Fin 10 → Char

/-- The member `const char PLAYER1_MARK = 'X'`. -/
def PLAYER1_MARK : Char := 'X'

/-- The member `const char PLAYER2_MARK = 'O'`. -/
def PLAYER2_MARK : Char := 'O'

/-- The assignment `board[i] = c` at an index that is inside the array. -/
def Board.set (board : Board) (i : Fin 10) (c : Char) : Board :=
  fun j => if j = i then c else board j

/-- The data members of the class `TicTacToe` (the random generator apart). -/
structure TicTacToe where
  board : Board
  isPlayer1Turn : Bool
  isSinglePlayer : Bool

/-- The array index of an `int` position known to lie in `1..9`. -/
def cellIndex (position : Int) (h : position ≥ 1 ∧ position ≤ 9) : Fin 10 :=
  ⟨position.toNat, by omega⟩

/-! ## Private member functions -/

/-- `bool isValidMove(int position) const`: the conjunction is evaluated left to
right, so the array is read only after both range tests have passed. -/
def isValidMove (board : Board) (position : Int) : Bool :=
  if h : position ≥ 1 ∧ position ≤ 9 then
    board (cellIndex position h) != PLAYER1_MARK &&
      board (cellIndex position h) != PLAYER2_MARK
  else false

/-- The function `isValidMove` together with the list of array indices it reads,
in the order of the reads (`&&` stops at the first false operand). -/
def isValidMoveReads (board : Board) (position : Int) : Bool × List Int :=
  if h : position ≥ 1 ∧ position ≤ 9 then
    if board (cellIndex position h) != PLAYER1_MARK then
      (board (cellIndex position h) != PLAYER2_MARK, [position, position])
    else (false, [position])
  else (false, [])

/-- `bool checkLine(int pos1, int pos2, int pos3) const`. -/
def checkLine (board : Board) (pos1 pos2 pos3 : Fin 10) : Bool :=
  board pos1 == board pos2 && board pos2 == board pos3

/-- `bool isBoardFull() const`: the loop over `i = 1..9` returns false at the
first cell that holds neither mark. -/
def isBoardFull (board : Board) : Bool :=
  ([1, 2, 3, 4, 5, 6, 7, 8, 9] : List (Fin 10)).all
    (fun i => !(board i != PLAYER1_MARK && board i != PLAYER2_MARK))

/-- The three tests of `isWinningMove` on the scratch copy: rows `i = 1, 4, 7`,
columns `i = 1, 2, 3`, then the two diagonals. -/
def lineOfMark (tempBoard : Board) (mark : Char) : Bool :=
  (tempBoard 1 == mark && tempBoard 2 == mark && tempBoard 3 == mark) ||
  (tempBoard 4 == mark && tempBoard 5 == mark && tempBoard 6 == mark) ||
  (tempBoard 7 == mark && tempBoard 8 == mark && tempBoard 9 == mark) ||
  (tempBoard 1 == mark && tempBoard 4 == mark && tempBoard 7 == mark) ||
  (tempBoard 2 == mark && tempBoard 5 == mark && tempBoard 8 == mark) ||
  (tempBoard 3 == mark && tempBoard 6 == mark && tempBoard 9 == mark) ||
  (tempBoard 1 == mark && tempBoard 5 == mark && tempBoard 9 == mark) ||
  (tempBoard 3 == mark && tempBoard 5 == mark && tempBoard 7 == mark)

/-- `bool isWinningMove(char mark, int position) const` with the member `board`
passed through: the result and the member as the call leaves it.  The write
goes to the local copy `tempBoard`. -/
def isWinningMoveState (board : Board) (mark : Char) (position : Int) : Bool × Board :=
  if h : isValidMove board position = false then (false, board)
  else
    let tempBoard : Board :=
      board.set (cellIndex position (by by_contra hc; exact h (dif_neg hc))) mark
    (lineOfMark tempBoard mark, board)

/-- `bool isWinningMove(char mark, int position) const`: the returned value. -/
def isWinningMove (board : Board) (mark : Char) (position : Int) : Bool :=
  (isWinningMoveState board mark position).1

/-- `int getComputerMove()`; `corners` and `sides` are the arrays `{1, 3, 7, 9}`
and `{2, 4, 6, 8}` as the two `std::shuffle` calls leave them. -/
def getComputerMove (board : Board) (corners sides : List Int) : Int :=
  match ([1, 2, 3, 4, 5, 6, 7, 8, 9] : List Int).find?
      (fun i => isWinningMove board PLAYER2_MARK i) with
  | some i => i
  | none =>
    match ([1, 2, 3, 4, 5, 6, 7, 8, 9] : List Int).find?
        (fun i => isWinningMove board PLAYER1_MARK i) with
    | some i => i
    | none =>
      if isValidMove board 5 then 5
      else
        match corners.find? (fun corner => isValidMove board corner) with
        | some corner => corner
        | none =>
          match sides.find? (fun side => isValidMove board side) with
          | some side => side
          | none => -1

/-! ## Public member functions -/

/-- Cell `i` right after construction: `board[i] = '0' + i`. -/
def initialCell (i : Fin 10) : Char := Char.ofNat (48 + i.val)

/-- The constructor `TicTacToe(bool singlePlayer)`.  It writes the cells
`1..9` only; `cell0` is whatever the unwritten cell `0` holds. -/
def TicTacToe.TicTacToe (singlePlayer : Bool) (cell0 : Char) : TicTacToe :=
  { board := fun i => if i = 0 then cell0 else initialCell i
    isPlayer1Turn := true
    isSinglePlayer := singlePlayer }

/-- `bool makeMove(int position)`: the returned value and the object after the
call (the prompt of the rejecting branch is left out). -/
def makeMove (g : TicTacToe) (position : Int) : Bool × TicTacToe :=
  if h : isValidMove g.board position = false then (false, g)
  else
    (true,
      { g with
        board := g.board.set (cellIndex position (by by_contra hc; exact h (dif_neg hc)))
          (if g.isPlayer1Turn then PLAYER1_MARK else PLAYER2_MARK)
        isPlayer1Turn := !g.isPlayer1Turn })

/-- `void makeComputerMove()`, given the two shuffled arrays. -/
def makeComputerMove (g : TicTacToe) (corners sides : List Int) : TicTacToe :=
  let position := getComputerMove g.board corners sides
  if position != -1 then (makeMove g position).2 else g

/-- `int checkGameState() const`: rows `i = 1, 4, 7`, columns `i = 1, 2, 3`,
the two diagonals, then the full-board test. -/
def checkGameState (board : Board) : Int :=
  if checkLine board 1 2 3 then 1
  else if checkLine board 4 5 6 then 1
  else if checkLine board 7 8 9 then 1
  else if checkLine board 1 4 7 then 1
  else if checkLine board 2 5 8 then 1
  else if checkLine board 3 6 9 then 1
  else if checkLine board 1 5 9 then 1
  else if checkLine board 3 5 7 then 1
  else if isBoardFull board then 0 else -1

/-- `bool isComputerTurn() const`. -/
def isComputerTurn (g : TicTacToe) : Bool :=
  g.isSinglePlayer && !g.isPlayer1Turn

/-- `int getCurrentPlayer() const`. -/
def getCurrentPlayer (g : TicTacToe) : Int :=
  if g.isPlayer1Turn then 1 else 2

/-! ## The game loop of `main` -/

/-- What one pass of the loop consumes: the number read from `std::cin` on a
human turn, the two shuffled arrays on a computer turn. -/
structure TurnInput where
  position : Int
  corners : List Int
  sides : List Int

/-- The `do { ... } while (gameState == -1)` loop of `main`, run on a list of
inputs: the object and the variable `gameState` when the loop stops or the
inputs end.  A rejected human move takes the `continue`, which jumps to the
loop condition with `gameState` as it was. -/
def mainLoop : TicTacToe → Int → List TurnInput → TicTacToe × Int
  | g, gameState, [] => (g, gameState)
  | g, gameState, input :: rest =>
    if isComputerTurn g then
      if checkGameState (makeComputerMove g input.corners input.sides).board = -1 then
        mainLoop (makeComputerMove g input.corners input.sides)
          (checkGameState (makeComputerMove g input.corners input.sides).board) rest
      else
        (makeComputerMove g input.corners input.sides,
          checkGameState (makeComputerMove g input.corners input.sides).board)
    else if !(makeMove g input.position).1 then
      if gameState = -1 then mainLoop (makeMove g input.position).2 gameState rest
      else ((makeMove g input.position).2, gameState)
    else
      if checkGameState (makeMove g input.position).2.board = -1 then
        mainLoop (makeMove g input.position).2
          (checkGameState (makeMove g input.position).2.board) rest
      else
        ((makeMove g input.position).2, checkGameState (makeMove g input.position).2.board)

/-- The object `game` of `main` once the loop has consumed `inputs`; `main`
constructs it as `TicTacToe game(choice == 1)` and leaves `gameState`
uninitialised, so its first value `gameState0` is arbitrary. -/
def loopState (choice : Int) (cell0 : Char) (gameState0 : Int) (inputs : List TurnInput) :
    TicTacToe :=
  (mainLoop (TicTacToe.TicTacToe (choice == 1) cell0) gameState0 inputs).1

/-- The result lines `main` prints after the loop. -/
inductive Announcement where
  /-- The line `Computer wins!`. -/
  | computerWins
  /-- The line `You win!`. -/
  | youWin
  /-- The line `Player N wins!` for the number `winner`. -/
  | playerWins (winner : Int)
  /-- The line `Game is a draw!`. -/
  | draw
  deriving DecidableEq

/-- The final `if (gameState == 1) ... else ...` of `main`. -/
def announce (choice : Int) (g : TicTacToe) (gameState : Int) : Announcement :=
  if gameState = 1 then
    if choice = 1 then
      (if getCurrentPlayer g = 1 then Announcement.computerWins else Announcement.youWin)
    else Announcement.playerWins (if getCurrentPlayer g = 1 then 2 else 1)
  else Announcement.draw

/-! ## Console output of the move functions -/

/-- The messages `makeMove` and `makeComputerMove` write to `std::cout`. -/
inductive Output where
  /-- The line `Invalid move! Position N is already taken or out of range.` -/
  | invalidMove (position : Int)
  /-- The prompt `Press Enter to try again...` -/
  | pressEnterToRetry
  /-- The line `Computer chooses position N` -/
  | computerChooses (position : Int)
  /-- The prompt `Press Enter to continue...` -/
  | pressEnterToContinue
  deriving DecidableEq

/-- What one call of `makeMove` writes: the two messages of the rejecting
branch, nothing on the accepting path. -/
def makeMoveOutput (g : TicTacToe) (position : Int) : List Output :=
  if isValidMove g.board position = false then
    [Output.invalidMove position, Output.pressEnterToRetry]
  else []

/-- What one call of `makeComputerMove` writes: inside `if (position != -1)` its
own two messages followed by those of the `makeMove` call, nothing otherwise. -/
def makeComputerMoveOutput (g : TicTacToe) (corners sides : List Int) : List Output :=
  if getComputerMove g.board corners sides != -1 then
    [Output.computerChooses (getComputerMove g.board corners sides),
      Output.pressEnterToContinue] ++
      makeMoveOutput g (getComputerMove g.board corners sides)
  else []

/-! ## Vocabulary of the specification -/

/-- The nine playing cells, positions `1..9`. -/
def cells : List (Fin 10) := [1, 2, 3, 4, 5, 6, 7, 8, 9]

/-- The 8 lines: rows 1-2-3, 4-5-6, 7-8-9; columns 1-4-7, 2-5-8, 3-6-9;
diagonals 1-5-9, 3-5-7. -/
def lines : List (Fin 10 × Fin 10 × Fin 10) :=
  [(1, 2, 3), (4, 5, 6), (7, 8, 9), (1, 4, 7), (2, 5, 8), (3, 6, 9), (1, 5, 9), (3, 5, 7)]

/-- A cell holds a mark when its character is `'X'` or `'O'`; otherwise it is empty. -/
def isMark (c : Char) : Bool := c == 'X' || c == 'O'

/-- The three cells of the line `l` all hold the character `m`. -/
def lineHolds (board : Board) (m : Char) (l : Fin 10 × Fin 10 × Fin 10) : Bool :=
  board l.1 == m && board l.2.1 == m && board l.2.2 == m

/-- Some line holds three `m`. -/
def completeLine (board : Board) (m : Char) : Bool :=
  lines.any (lineHolds board m)

/-- Some line holds three `'X'` or three `'O'`. -/
def anyLineComplete (board : Board) : Bool :=
  completeLine board 'X' || completeLine board 'O'

/-- The number of playing cells that hold a mark. -/
def markCount (board : Board) : Nat :=
  cells.countP (fun i => isMark (board i))

/-- A sequence of `makeMove` calls: the object after the last call and the
values the calls returned, in order. -/
def runMoves : TicTacToe → List Int → TicTacToe × List Bool
  | g, [] => (g, [])
  | g, position :: rest =>
    ((runMoves (makeMove g position).2 rest).1,
      (makeMove g position).1 :: (runMoves (makeMove g position).2 rest).2)

/-- The mark `makeMove` writes for a player: `'X'` for player 1, `'O'` for
player 2 (the computer in a single-player game). -/
def markOfPlayer (player : Int) : Char :=
  if player = 1 then 'X' else 'O'

/-- The mark of the player an announcement names as the winner; the human of a
single-player game is player 1, the computer player 2. -/
def winnerMark : Announcement → Option Char
  | Announcement.computerWins => some 'O'
  | Announcement.youWin => some 'X'
  | Announcement.playerWins winner => some (markOfPlayer winner)
  | Announcement.draw => none

/-- The cell `t` is empty and lies on a line whose other two cells hold `m`:
placing `m` on `t` completes that line. -/
def completesLine (board : Board) (m : Char) (t : Fin 10) : Bool :=
  !isMark (board t) &&
    lines.any (fun l =>
      (t == l.1 && board l.2.1 == m && board l.2.2 == m) ||
      (t == l.2.1 && board l.1 == m && board l.2.2 == m) ||
      (t == l.2.2 && board l.1 == m && board l.2.1 == m))

/-- The positions of the calls of a sequence of `makeMove` calls that returned
true, in the order of the calls. -/
def successfulMoves : TicTacToe → List Int → List Int
  | _, [] => []
  | g, position :: rest =>
    if (makeMove g position).1 then position :: successfulMoves (makeMove g position).2 rest
    else successfulMoves (makeMove g position).2 rest

/-- The number of playing cells that hold the character `m`. -/
def countMark (board : Board) (m : Char) : Nat :=
  cells.countP (fun i => board i == m)

/-- The 24 orderings of the corner array `{1, 3, 7, 9}`. -/
def cornerOrderings : List (List Int) := List.permutations' [1, 3, 7, 9]

/-- The 24 orderings of the side array `{2, 4, 6, 8}`. -/
def sideOrderings : List (List Int) := List.permutations' [2, 4, 6, 8]

/-- The number of corner orderings for which `getComputerMove` returns `position`. -/
def cornerOrderingCount (board : Board) (sides : List Int) (position : Int) : Nat :=
  (cornerOrderings.filter (fun corners => getComputerMove board corners sides == position)).length

/-- The number of empty corners of a board. -/
def emptyCorners (board : Board) : Nat :=
  ([1, 3, 7, 9] : List (Fin 10)).countP (fun i => !isMark (board i))

/-- The emptiness of the four corners as a test on positions: `v1`, `v3`, `v7`
and `v9` say whether `isValidMove` accepts 1, 3, 7 and 9. -/
def cornerPattern (v1 v3 v7 v9 : Bool) (position : Int) : Bool :=
  if position = 1 then v1 else if position = 3 then v3 else if position = 7 then v7 else v9

/-- The mark written by the successful call number `j`, counted from 0, of a
sequence that starts with the turn flag `turn`: the marks alternate. -/
def markAt (turn : Bool) (j : Nat) : Char :=
  if turn then (if j % 2 = 0 then 'X' else 'O') else (if j % 2 = 0 then 'O' else 'X')

/-- Two objects that agree on the nine playing cells and on both flags; they
may differ in the unused cell 0. -/
def SameGame (g1 g2 : TicTacToe) : Prop :=
  (∀ i ∈ cells, g1.board i = g2.board i) ∧ g1.isPlayer1Turn = g2.isPlayer1Turn ∧
    g1.isSinglePlayer = g2.isSinglePlayer

/-- The inputs of a single-player game the computer loses: the human plays 1, 9,
7 and 8, and on each computer turn the shuffles leave the corners as 3, 7, 1, 9
and the sides as 2, 4, 6, 8. -/
def losingInputs : List TurnInput :=
  [⟨1, [3, 7, 1, 9], [2, 4, 6, 8]⟩, ⟨0, [3, 7, 1, 9], [2, 4, 6, 8]⟩,
    ⟨9, [3, 7, 1, 9], [2, 4, 6, 8]⟩, ⟨0, [3, 7, 1, 9], [2, 4, 6, 8]⟩,
    ⟨7, [3, 7, 1, 9], [2, 4, 6, 8]⟩, ⟨0, [3, 7, 1, 9], [2, 4, 6, 8]⟩,
    ⟨8, [3, 7, 1, 9], [2, 4, 6, 8]⟩]

/-- Every playing cell holds its initial digit or one of the two marks. -/
def CellsOk (board : Board) : Prop :=
  ∀ i : Fin 10, i ≠ 0 → board i = initialCell i ∨ board i = 'X' ∨ board i = 'O'

/-! ## Basic facts -/

theorem cellIndex_val (p : Int) (h : p ≥ 1 ∧ p ≤ 9) : ((cellIndex p h).val : Int) = p := by
  simp only [cellIndex]
  omega

theorem cellIndex_ne_zero (p : Int) (h : p ≥ 1 ∧ p ≤ 9) : cellIndex p h ≠ 0 := by
  intro h0
  have h1 := congrArg Fin.val h0
  simp only [cellIndex, Fin.val_zero] at h1
  omega

theorem cellIndex_eq_of_val (p : Int) (h : p ≥ 1 ∧ p ≤ 9) (i : Fin 10) (hi : (i.val : Int) = p) :
    cellIndex p h = i := by
  apply Fin.ext
  simp only [cellIndex]
  omega

theorem set_same (b : Board) (i : Fin 10) (c : Char) : b.set i c i = c := by
  simp [Board.set]

theorem set_other (b : Board) (i j : Fin 10) (c : Char) (h : j ≠ i) : b.set i c j = b j := by
  simp [Board.set, h]

theorem isValidMove_iff (b : Board) (p : Int) :
    isValidMove b p = true ↔
      ∃ i : Fin 10, (i.val : Int) = p ∧ i ≠ 0 ∧ b i ≠ 'X' ∧ b i ≠ 'O' := by
  unfold isValidMove
  split
  · rename_i h
    constructor
    · intro hv
      simp only [PLAYER1_MARK, PLAYER2_MARK, Bool.and_eq_true, bne_iff_ne] at hv
      exact ⟨cellIndex p h, cellIndex_val p h, cellIndex_ne_zero p h, hv.1, hv.2⟩
    · rintro ⟨i, hi, _, hx, ho⟩
      rw [cellIndex_eq_of_val p h i hi]
      simp [PLAYER1_MARK, PLAYER2_MARK, hx, ho]
  · rename_i h
    constructor
    · intro hv
      exact absurd hv (by simp)
    · rintro ⟨i, hi, h0, _, _⟩
      exfalso
      apply h
      have h1 : i.val ≠ 0 := fun hh => h0 (Fin.ext hh)
      have h2 := i.isLt
      omega

theorem isValidMove_range (b : Board) (p : Int) (h : isValidMove b p = true) :
    1 ≤ p ∧ p ≤ 9 := by
  obtain ⟨i, hi, h0, _, _⟩ := (isValidMove_iff b p).1 h
  have h1 : i.val ≠ 0 := fun hh => h0 (Fin.ext hh)
  have h2 := i.isLt
  omega

theorem makeMove_invalid (g : TicTacToe) (p : Int) (h : isValidMove g.board p = false) :
    makeMove g p = (false, g) := by
  unfold makeMove
  rw [dif_pos h]

theorem makeMove_valid (g : TicTacToe) (p : Int) (i : Fin 10) (hi : (i.val : Int) = p)
    (h : isValidMove g.board p = true) :
    makeMove g p =
      (true, { board := g.board.set i (if g.isPlayer1Turn then 'X' else 'O')
               isPlayer1Turn := !g.isPlayer1Turn
               isSinglePlayer := g.isSinglePlayer }) := by
  have hr := isValidMove_range g.board p h
  unfold makeMove
  rw [dif_neg (by simp [h])]
  simp only [PLAYER1_MARK, PLAYER2_MARK]
  rw [cellIndex_eq_of_val p _ i hi]

theorem makeMove_result (g : TicTacToe) (p : Int) :
    (isValidMove g.board p = false ∧ makeMove g p = (false, g)) ∨
    (isValidMove g.board p = true ∧ ∃ i : Fin 10, (i.val : Int) = p ∧ i ≠ 0 ∧
      g.board i ≠ 'X' ∧ g.board i ≠ 'O' ∧
      makeMove g p =
        (true, { board := g.board.set i (if g.isPlayer1Turn then 'X' else 'O')
                 isPlayer1Turn := !g.isPlayer1Turn
                 isSinglePlayer := g.isSinglePlayer })) := by
  cases h : isValidMove g.board p
  · exact Or.inl ⟨rfl, makeMove_invalid g p h⟩
  · obtain ⟨i, hi, h0, hx, ho⟩ := (isValidMove_iff g.board p).1 h
    exact Or.inr ⟨rfl, i, hi, h0, hx, ho, makeMove_valid g p i hi h⟩

theorem initialCell_toNat : ∀ i : Fin 10, (initialCell i).toNat = 48 + i.val := by
  decide

theorem initialCell_injective (i j : Fin 10) (h : initialCell i = initialCell j) : i = j := by
  have h1 := congrArg Char.toNat h
  rw [initialCell_toNat, initialCell_toNat] at h1
  exact Fin.ext (by omega)

theorem initialCell_not_mark : ∀ i : Fin 10, initialCell i ≠ 'X' ∧ initialCell i ≠ 'O' := by
  decide

theorem lines_distinct (l : Fin 10 × Fin 10 × Fin 10) (hl : l ∈ lines) :
    l.1 ≠ 0 ∧ l.2.1 ≠ 0 ∧ l.2.2 ≠ 0 ∧ l.1 ≠ l.2.1 ∧ l.2.1 ≠ l.2.2 ∧ l.1 ≠ l.2.2 := by
  simp only [lines, List.mem_cons, List.mem_singleton, List.not_mem_nil, or_false] at hl
  rcases hl with h | h | h | h | h | h | h | h <;> subst h <;> decide

theorem cellsOk_init (singlePlayer : Bool) (cell0 : Char) :
    CellsOk (TicTacToe.TicTacToe singlePlayer cell0).board := by
  intro i hi
  left
  simp [TicTacToe.TicTacToe, hi]

theorem cellsOk_set (b : Board) (h : CellsOk b) (i : Fin 10) (c : Char)
    (hc : c = 'X' ∨ c = 'O') : CellsOk (b.set i c) := by
  intro j hj
  by_cases hji : j = i
  · subst hji
    rw [set_same]
    exact Or.inr hc
  · rw [set_other _ _ _ _ hji]
    exact h j hj

theorem cellsOk_makeMove (g : TicTacToe) (p : Int) (h : CellsOk g.board) :
    CellsOk (makeMove g p).2.board := by
  rcases makeMove_result g p with ⟨_, hm⟩ | ⟨_, i, _, _, _, _, hm⟩
  · rw [hm]
    exact h
  · rw [hm]
    apply cellsOk_set _ h
    by_cases ht : g.isPlayer1Turn = true <;> simp [ht]

theorem cellsOk_runMoves (moves : List Int) :
    ∀ g : TicTacToe, CellsOk g.board → CellsOk (runMoves g moves).1.board := by
  induction moves with
  | nil => intro g h; exact h
  | cons p rest ih =>
    intro g h
    simp only [runMoves]
    exact ih _ (cellsOk_makeMove g p h)

theorem eq_cells_mark (b : Board) (h : CellsOk b) (i j : Fin 10) (hi : i ≠ 0) (hj : j ≠ 0)
    (hij : i ≠ j) (e : b i = b j) : b i = 'X' ∨ b i = 'O' := by
  rcases h i hi with h1 | h1
  · rcases h j hj with h2 | h2 | h2
    · exact absurd (initialCell_injective i j (by rw [← h1, ← h2, e])) hij
    · exact absurd (by rw [← h1, e, h2]) (initialCell_not_mark i).1
    · exact absurd (by rw [← h1, e, h2]) (initialCell_not_mark i).2
  · exact h1

theorem checkLine_iff (b : Board) (h : CellsOk b) (l : Fin 10 × Fin 10 × Fin 10)
    (hl : l ∈ lines) :
    checkLine b l.1 l.2.1 l.2.2 = true ↔
      (lineHolds b 'X' l = true ∨ lineHolds b 'O' l = true) := by
  obtain ⟨h1, h2, _, h12, _, _⟩ := lines_distinct l hl
  simp only [checkLine, lineHolds, Bool.and_eq_true, beq_iff_eq]
  constructor
  · rintro ⟨e1, e2⟩
    rcases eq_cells_mark b h l.1 l.2.1 h1 h2 h12 e1 with hm | hm
    · exact Or.inl ⟨⟨hm, by rw [← e1, hm]⟩, by rw [← e2, ← e1, hm]⟩
    · exact Or.inr ⟨⟨hm, by rw [← e1, hm]⟩, by rw [← e2, ← e1, hm]⟩
  · rintro (⟨⟨e1, e2⟩, e3⟩ | ⟨⟨e1, e2⟩, e3⟩)
    · exact ⟨by rw [e1, e2], by rw [e2, e3]⟩
    · exact ⟨by rw [e1, e2], by rw [e2, e3]⟩

theorem checkGameState_eq_one (b : Board) :
    checkGameState b = 1 ↔ ∃ l ∈ lines, checkLine b l.1 l.2.1 l.2.2 = true := by
  unfold checkGameState
  simp only [lines, List.mem_cons, List.mem_singleton, List.not_mem_nil, or_false,
    exists_eq_or_imp, exists_eq_left]
  split_ifs <;> simp_all

theorem checkGameState_eq_zero (b : Board) :
    checkGameState b = 0 ↔
      (¬ ∃ l ∈ lines, checkLine b l.1 l.2.1 l.2.2 = true) ∧ isBoardFull b = true := by
  unfold checkGameState
  simp only [lines, List.mem_cons, List.mem_singleton, List.not_mem_nil, or_false,
    exists_eq_or_imp, exists_eq_left]
  split_ifs <;> simp_all

theorem checkGameState_eq_neg_one (b : Board) :
    checkGameState b = -1 ↔
      (¬ ∃ l ∈ lines, checkLine b l.1 l.2.1 l.2.2 = true) ∧ isBoardFull b = false := by
  unfold checkGameState
  simp only [lines, List.mem_cons, List.mem_singleton, List.not_mem_nil, or_false,
    exists_eq_or_imp, exists_eq_left]
  split_ifs <;> simp_all

theorem anyLineComplete_iff (b : Board) :
    anyLineComplete b = true ↔
      ∃ l ∈ lines, (lineHolds b 'X' l = true ∨ lineHolds b 'O' l = true) := by
  simp only [anyLineComplete, completeLine, Bool.or_eq_true, List.any_eq_true]
  constructor
  · rintro (⟨l, hl, h⟩ | ⟨l, hl, h⟩)
    · exact ⟨l, hl, Or.inl h⟩
    · exact ⟨l, hl, Or.inr h⟩
  · rintro ⟨l, hl, h | h⟩
    · exact Or.inl ⟨l, hl, h⟩
    · exact Or.inr ⟨l, hl, h⟩

theorem line_checked_iff (b : Board) (h : CellsOk b) :
    (∃ l ∈ lines, checkLine b l.1 l.2.1 l.2.2 = true) ↔ anyLineComplete b = true := by
  rw [anyLineComplete_iff]
  constructor
  · rintro ⟨l, hl, hc⟩
    exact ⟨l, hl, (checkLine_iff b h l hl).1 hc⟩
  · rintro ⟨l, hl, hc⟩
    exact ⟨l, hl, (checkLine_iff b h l hl).2 hc⟩

theorem markCount_le (b : Board) : markCount b ≤ 9 :=
  List.countP_le_length _

theorem isBoardFull_iff (b : Board) : isBoardFull b = true ↔ markCount b = 9 := by
  have hlen : cells.length = 9 := rfl
  unfold markCount
  rw [← hlen, List.countP_eq_length]
  simp only [isBoardFull, cells, isMark, PLAYER1_MARK, PLAYER2_MARK, List.all_eq_true]
  constructor
  · intro hall i hi
    have := hall i hi
    simp only [Bool.not_eq_true', Bool.and_eq_false_iff, bne_eq_false_iff_eq] at this
    simpa using this
  · intro hall i hi
    have := hall i hi
    simp only [Bool.or_eq_true, beq_iff_eq] at this
    simpa using this

/-! ## Moves: legality, effect, rejection -/

/-- C4: for every board and every integer position, `isValidMove` is true
exactly when the position lies in `1..9` and its cell holds neither `'X'` nor
`'O'`; for a position outside `1..9` the result is false and no array index is
read, and every index that is read lies in `1..9`. -/
theorem isValidMove_spec (b : Board) (p : Int) :
    (isValidMove b p = true ↔
      1 ≤ p ∧ p ≤ 9 ∧ ∃ i : Fin 10, (i.val : Int) = p ∧ b i ≠ 'X' ∧ b i ≠ 'O') ∧
    ((p < 1 ∨ 9 < p) → isValidMove b p = false ∧ (isValidMoveReads b p).2 = []) ∧
    (isValidMoveReads b p).1 = isValidMove b p ∧
    (∀ q ∈ (isValidMoveReads b p).2, q = p ∧ 1 ≤ q ∧ q ≤ 9) := by
  refine ⟨?_, ?_, ?_, ?_⟩
  · constructor
    · intro h
      obtain ⟨i, hi, _, hx, ho⟩ := (isValidMove_iff b p).1 h
      have hr := isValidMove_range b p h
      exact ⟨hr.1, hr.2, i, hi, hx, ho⟩
    · rintro ⟨h1, _, i, hi, hx, ho⟩
      refine (isValidMove_iff b p).2 ⟨i, hi, ?_, hx, ho⟩
      intro h0
      rw [h0] at hi
      simp only [Fin.val_zero, Nat.cast_zero] at hi
      omega
  · intro h
    have hn : ¬ (p ≥ 1 ∧ p ≤ 9) := by omega
    constructor
    · unfold isValidMove
      rw [dif_neg hn]
    · unfold isValidMoveReads
      rw [dif_neg hn]
  · unfold isValidMoveReads isValidMove
    split
    · split
      · rename_i _ hx
        simp [hx]
      · rename_i _ hx
        simp [hx]
    · rfl
  · intro q hq
    unfold isValidMoveReads at hq
    split at hq
    · rename_i h
      split at hq
      · simp only [List.mem_cons, List.mem_singleton, List.not_mem_nil, or_false, or_self] at hq
        subst hq
        exact ⟨rfl, h.1, h.2⟩
      · simp only [List.mem_singleton] at hq
        subst hq
        exact ⟨rfl, h.1, h.2⟩
    · simp at hq

/-- C2: when `isValidMove(p)` is true, `makeMove(p)` returns true, writes `'X'`
into cell `p` if it was player 1's turn and `'O'` otherwise, leaves the other
cells (cell `0` included) and the game mode unchanged and flips the turn;
afterwards `isValidMove(p)` is false and a second `makeMove(p)` is rejected
without any change. -/
theorem makeMove_legal (g : TicTacToe) (p : Int) (h : isValidMove g.board p = true) :
    ∃ i : Fin 10, (i.val : Int) = p ∧
      (makeMove g p).1 = true ∧
      (makeMove g p).2.board i = (if getCurrentPlayer g = 1 then 'X' else 'O') ∧
      (∀ j : Fin 10, j ≠ i → (makeMove g p).2.board j = g.board j) ∧
      (makeMove g p).2.isSinglePlayer = g.isSinglePlayer ∧
      (makeMove g p).2.isPlayer1Turn = !g.isPlayer1Turn ∧
      getCurrentPlayer (makeMove g p).2 ≠ getCurrentPlayer g ∧
      isValidMove (makeMove g p).2.board p = false ∧
      makeMove (makeMove g p).2 p = (false, (makeMove g p).2) := by
  obtain ⟨i, hi, h0, _, _⟩ := (isValidMove_iff g.board p).1 h
  have hm := makeMove_valid g p i hi h
  have hinv : isValidMove (makeMove g p).2.board p = false := by
    rw [hm]
    rw [Bool.eq_false_iff]
    intro hv
    obtain ⟨k, hk, _, hx, ho⟩ := (isValidMove_iff _ p).1 hv
    have hki : k = i := Fin.ext (by omega)
    subst hki
    simp only [set_same] at hx ho
    cases hturn : g.isPlayer1Turn <;> simp [hturn] at hx ho
  refine ⟨i, hi, ?_, ?_, ?_, ?_, ?_, ?_, hinv, makeMove_invalid _ p hinv⟩
  · rw [hm]
  · rw [hm]
    simp only [set_same, getCurrentPlayer]
    by_cases hturn : g.isPlayer1Turn = true <;> simp [hturn]
  · intro j hj
    rw [hm]
    exact set_other _ _ _ _ hj
  · rw [hm]
  · rw [hm]
  · rw [hm]
    simp only [getCurrentPlayer]
    by_cases hturn : g.isPlayer1Turn = true <;> simp [hturn]

/-- Witness of C2: the opening move on cell 5 of a fresh two-player game. -/
theorem makeMove_legal_witness :
    ∃ i : Fin 10, (i.val : Int) = 5 ∧
      (makeMove (TicTacToe.TicTacToe false 'a') 5).1 = true ∧
      (makeMove (TicTacToe.TicTacToe false 'a') 5).2.board i =
        (if getCurrentPlayer (TicTacToe.TicTacToe false 'a') = 1 then 'X' else 'O') ∧
      (∀ j : Fin 10, j ≠ i →
        (makeMove (TicTacToe.TicTacToe false 'a') 5).2.board j =
          (TicTacToe.TicTacToe false 'a').board j) ∧
      (makeMove (TicTacToe.TicTacToe false 'a') 5).2.isSinglePlayer =
        (TicTacToe.TicTacToe false 'a').isSinglePlayer ∧
      (makeMove (TicTacToe.TicTacToe false 'a') 5).2.isPlayer1Turn =
        !(TicTacToe.TicTacToe false 'a').isPlayer1Turn ∧
      getCurrentPlayer (makeMove (TicTacToe.TicTacToe false 'a') 5).2 ≠
        getCurrentPlayer (TicTacToe.TicTacToe false 'a') ∧
      isValidMove (makeMove (TicTacToe.TicTacToe false 'a') 5).2.board 5 = false ∧
      makeMove (makeMove (TicTacToe.TicTacToe false 'a') 5).2 5 =
        (false, (makeMove (TicTacToe.TicTacToe false 'a') 5).2) :=
  makeMove_legal (TicTacToe.TicTacToe false 'a') 5 (by decide)

/-- C3: for a position outside `1..9`, or one whose cell already holds `'X'` or
`'O'`, `makeMove` returns false and the whole object (every board cell, the
turn flag and the game mode) is what it was. -/
theorem makeMove_illegal (g : TicTacToe) (p : Int)
    (h : p < 1 ∨ 9 < p ∨ ∃ i : Fin 10, (i.val : Int) = p ∧ (g.board i = 'X' ∨ g.board i = 'O')) :
    (makeMove g p).1 = false ∧ (makeMove g p).2 = g ∧
      (∀ j : Fin 10, (makeMove g p).2.board j = g.board j) ∧
      (makeMove g p).2.isPlayer1Turn = g.isPlayer1Turn ∧
      (makeMove g p).2.isSinglePlayer = g.isSinglePlayer := by
  have hinv : isValidMove g.board p = false := by
    rw [Bool.eq_false_iff]
    intro hv
    obtain ⟨k, hk, _, hx, ho⟩ := (isValidMove_iff _ p).1 hv
    have hr := isValidMove_range _ p hv
    rcases h with h | h | ⟨i, hi, hm⟩
    · omega
    · omega
    · have hki : k = i := Fin.ext (by omega)
      subst hki
      rcases hm with hm | hm
      · exact hx hm
      · exact ho hm
  rw [makeMove_invalid g p hinv]
  exact ⟨rfl, rfl, fun _ => rfl, rfl, rfl⟩

/-- Witness of C3: on the board reached by the opening move 5, the occupied
position 5 is rejected. -/
theorem makeMove_illegal_witness :
    ((5 : Int) < 1 ∨ (9 : Int) < 5 ∨ ∃ i : Fin 10, (i.val : Int) = 5 ∧
        ((makeMove (TicTacToe.TicTacToe true 'a') 5).2.board i = 'X' ∨
          (makeMove (TicTacToe.TicTacToe true 'a') 5).2.board i = 'O')) ∧
      (makeMove (makeMove (TicTacToe.TicTacToe true 'a') 5).2 5).1 = false ∧
      (makeMove (makeMove (TicTacToe.TicTacToe true 'a') 5).2 5).2 =
        (makeMove (TicTacToe.TicTacToe true 'a') 5).2 :=
  have hyp : (5 : Int) < 1 ∨ (9 : Int) < 5 ∨ ∃ i : Fin 10, (i.val : Int) = 5 ∧
      ((makeMove (TicTacToe.TicTacToe true 'a') 5).2.board i = 'X' ∨
        (makeMove (TicTacToe.TicTacToe true 'a') 5).2.board i = 'O') :=
    Or.inr (Or.inr ⟨5, by decide, Or.inl (by decide)⟩)
  ⟨hyp, (makeMove_illegal _ 5 hyp).1, (makeMove_illegal _ 5 hyp).2.1⟩

/-! ## The outcome on reachable boards -/

/-- C1: on every board reached from the constructor by a sequence of `makeMove`
calls, `checkGameState` returns 1 exactly when one of the 8 lines holds three
`'X'` or three `'O'`, returns 0 exactly when no line is complete and all 9
cells hold a mark, and returns -1 exactly when no line is complete and fewer
than 9 cells hold a mark; a line that `checkLine` reports has a mark in each of
its three cells. -/
theorem checkGameState_reachable (singlePlayer : Bool) (cell0 : Char) (moves : List Int) :
    (checkGameState (runMoves (TicTacToe.TicTacToe singlePlayer cell0) moves).1.board = 1 ↔
      anyLineComplete (runMoves (TicTacToe.TicTacToe singlePlayer cell0) moves).1.board = true) ∧
    (checkGameState (runMoves (TicTacToe.TicTacToe singlePlayer cell0) moves).1.board = 0 ↔
      anyLineComplete (runMoves (TicTacToe.TicTacToe singlePlayer cell0) moves).1.board = false ∧
        markCount (runMoves (TicTacToe.TicTacToe singlePlayer cell0) moves).1.board = 9) ∧
    (checkGameState (runMoves (TicTacToe.TicTacToe singlePlayer cell0) moves).1.board = -1 ↔
      anyLineComplete (runMoves (TicTacToe.TicTacToe singlePlayer cell0) moves).1.board = false ∧
        markCount (runMoves (TicTacToe.TicTacToe singlePlayer cell0) moves).1.board < 9) ∧
    (∀ l ∈ lines,
      checkLine (runMoves (TicTacToe.TicTacToe singlePlayer cell0) moves).1.board
          l.1 l.2.1 l.2.2 = true →
        isMark ((runMoves (TicTacToe.TicTacToe singlePlayer cell0) moves).1.board l.1) = true ∧
        isMark ((runMoves (TicTacToe.TicTacToe singlePlayer cell0) moves).1.board l.2.1) = true ∧
        isMark ((runMoves (TicTacToe.TicTacToe singlePlayer cell0) moves).1.board l.2.2) = true) := by
  have hok := cellsOk_runMoves moves _ (cellsOk_init singlePlayer cell0)
  generalize (runMoves (TicTacToe.TicTacToe singlePlayer cell0) moves).1.board = b at hok
  have hline := line_checked_iff b hok
  refine ⟨?_, ?_, ?_, ?_⟩
  · rw [checkGameState_eq_one, hline]
  · rw [checkGameState_eq_zero, hline, isBoardFull_iff, Bool.not_eq_true]
  · rw [checkGameState_eq_neg_one, hline, Bool.not_eq_true]
    have hle := markCount_le b
    have hfull := isBoardFull_iff b
    constructor
    · rintro ⟨h1, h2⟩
      refine ⟨h1, lt_of_le_of_ne hle ?_⟩
      intro h9
      rw [hfull.2 h9] at h2
      exact Bool.noConfusion h2
    · rintro ⟨h1, h2⟩
      refine ⟨h1, ?_⟩
      rw [Bool.eq_false_iff]
      intro hf
      have := hfull.1 hf
      omega
  · intro l hl hc
    rcases (checkLine_iff b hok l hl).1 hc with h | h
    · simp only [lineHolds, Bool.and_eq_true, beq_iff_eq] at h
      simp [isMark, h.1.1, h.1.2, h.2]
    · simp only [lineHolds, Bool.and_eq_true, beq_iff_eq] at h
      simp [isMark, h.1.1, h.1.2, h.2]

/-- Witness of C1: the nine moves 1, 2, 3, 5, 4, 6, 8, 7, 9 fill the board with
alternating marks and complete no line, and `checkGameState` returns 0. -/
theorem checkGameState_reachable_witness :
    checkGameState (runMoves (TicTacToe.TicTacToe false 'a') [1, 2, 3, 5, 4, 6, 8, 7, 9]).1.board
      = 0 :=
  (checkGameState_reachable false 'a' [1, 2, 3, 5, 4, 6, 8, 7, 9]).2.1.2
    ⟨by decide, by decide⟩

/-! ## Turn alternation -/

theorem turn_after_runMoves (moves : List Int) :
    ∀ g : TicTacToe,
      ((runMoves g moves).1.isPlayer1Turn = g.isPlayer1Turn ↔
        Even ((runMoves g moves).2.count true)) := by
  induction moves with
  | nil => intro g; simp [runMoves]
  | cons p rest ih =>
    intro g
    simp only [runMoves]
    have ih1 := ih (makeMove g p).2
    rcases makeMove_result g p with ⟨_, hm⟩ | ⟨_, i, _, _, _, _, hm⟩
    · rw [hm] at ih1 ⊢
      simpa using ih1
    · rw [hm] at ih1 ⊢
      simp only [List.count_cons_self, Nat.even_add_one] at ih1 ⊢
      rw [← ih1]
      cases (runMoves _ rest).1.isPlayer1Turn <;> cases g.isPlayer1Turn <;> simp

/-- C5: for every sequence of `makeMove` calls on a freshly constructed game,
the turn-holder after the sequence is player 1 exactly when the number of calls
that returned true is even; the turn starts with player 1, every successful
call flips it and no rejected call changes it. -/
theorem turn_parity (singlePlayer : Bool) (cell0 : Char) (moves : List Int) :
    getCurrentPlayer (TicTacToe.TicTacToe singlePlayer cell0) = 1 ∧
    (getCurrentPlayer (runMoves (TicTacToe.TicTacToe singlePlayer cell0) moves).1 = 1 ↔
      Even ((runMoves (TicTacToe.TicTacToe singlePlayer cell0) moves).2.count true)) ∧
    (∀ (g : TicTacToe) (p : Int), (makeMove g p).1 = true →
      (makeMove g p).2.isPlayer1Turn = !g.isPlayer1Turn) ∧
    (∀ (g : TicTacToe) (p : Int), (makeMove g p).1 = false →
      (makeMove g p).2.isPlayer1Turn = g.isPlayer1Turn) := by
  refine ⟨rfl, ?_, ?_, ?_⟩
  · rw [← turn_after_runMoves moves (TicTacToe.TicTacToe singlePlayer cell0)]
    simp only [getCurrentPlayer, TicTacToe.TicTacToe]
    split <;> simp_all
  · intro g p h
    rcases makeMove_result g p with ⟨_, hm⟩ | ⟨_, i, _, _, _, _, hm⟩
    · rw [hm] at h
      exact Bool.noConfusion h
    · rw [hm]
  · intro g p h
    rcases makeMove_result g p with ⟨_, hm⟩ | ⟨_, i, _, _, _, _, hm⟩
    · rw [hm]
    · rw [hm] at h
      exact Bool.noConfusion h

/-! ## The game loop: one winner at most -/

theorem lineHolds_checkLine (b : Board) (m : Char) (l : Fin 10 × Fin 10 × Fin 10)
    (h : lineHolds b m l = true) : checkLine b l.1 l.2.1 l.2.2 = true := by
  simp only [lineHolds, Bool.and_eq_true, beq_iff_eq] at h
  simp [checkLine, h.1.1, h.1.2, h.2]

theorem lineHolds_set (b : Board) (i : Fin 10) (c m : Char) (l : Fin 10 × Fin 10 × Fin 10)
    (hb : checkLine b l.1 l.2.1 l.2.2 = false) (h : lineHolds (b.set i c) m l = true) :
    m = c ∧ (l.1 = i ∨ l.2.1 = i ∨ l.2.2 = i) := by
  simp only [lineHolds, Bool.and_eq_true, beq_iff_eq] at h
  obtain ⟨⟨h1, h2⟩, h3⟩ := h
  by_cases e1 : l.1 = i
  · rw [e1, set_same] at h1
    exact ⟨h1.symm, Or.inl e1⟩
  · by_cases e2 : l.2.1 = i
    · rw [e2, set_same] at h2
      exact ⟨h2.symm, Or.inr (Or.inl e2)⟩
    · by_cases e3 : l.2.2 = i
      · rw [e3, set_same] at h3
        exact ⟨h3.symm, Or.inr (Or.inr e3)⟩
      · rw [set_other _ _ _ _ e1] at h1
        rw [set_other _ _ _ _ e2] at h2
        rw [set_other _ _ _ _ e3] at h3
        have : checkLine b l.1 l.2.1 l.2.2 = true := by
          simp [checkLine, h1, h2, h3]
        rw [hb] at this
        exact Bool.noConfusion this

theorem no_line_in_progress (b : Board) (h : checkGameState b = -1)
    (l : Fin 10 × Fin 10 × Fin 10) (hl : l ∈ lines) : checkLine b l.1 l.2.1 l.2.2 = false := by
  have h1 := ((checkGameState_eq_neg_one b).1 h).1
  rw [Bool.eq_false_iff]
  intro hc
  exact h1 ⟨l, hl, hc⟩

theorem markOfPlayer_current (g : TicTacToe) :
    markOfPlayer (getCurrentPlayer g) = (if g.isPlayer1Turn then 'X' else 'O') := by
  simp only [markOfPlayer, getCurrentPlayer]
  by_cases ht : g.isPlayer1Turn = true <;> simp [ht]

theorem line_after_move (g : TicTacToe) (p : Int) (h : checkGameState g.board = -1)
    (m : Char) (l : Fin 10 × Fin 10 × Fin 10) (hl : l ∈ lines)
    (hh : lineHolds (makeMove g p).2.board m l = true) :
    m = markOfPlayer (getCurrentPlayer g) := by
  have hb := no_line_in_progress g.board h l hl
  rcases makeMove_result g p with ⟨_, hm⟩ | ⟨_, i, _, _, _, _, hm⟩
  · rw [hm] at hh
    rw [lineHolds_checkLine _ _ _ hh] at hb
    exact Bool.noConfusion hb
  · rw [hm] at hh
    rw [markOfPlayer_current]
    exact (lineHolds_set g.board i _ m l hb hh).1

theorem no_double_after_move (g : TicTacToe) (p : Int) (h : checkGameState g.board = -1) :
    ¬ (completeLine (makeMove g p).2.board 'X' = true ∧
        completeLine (makeMove g p).2.board 'O' = true) := by
  rintro ⟨hx, ho⟩
  simp only [completeLine, List.any_eq_true] at hx ho
  obtain ⟨l1, hl1, h1⟩ := hx
  obtain ⟨l2, hl2, h2⟩ := ho
  have e1 := line_after_move g p h 'X' l1 hl1 h1
  have e2 := line_after_move g p h 'O' l2 hl2 h2
  rw [← e1] at e2
  exact absurd e2 (by decide)

theorem makeComputerMove_eq (g : TicTacToe) (corners sides : List Int) :
    makeComputerMove g corners sides =
      (makeMove g (getComputerMove g.board corners sides)).2 := by
  unfold makeComputerMove
  by_cases hp : getComputerMove g.board corners sides = -1
  · have hinv : isValidMove g.board (-1) = false := by
      rw [Bool.eq_false_iff]
      intro hv
      have := isValidMove_range _ _ hv
      omega
    simp only [hp, bne_self_eq_false, Bool.false_eq_true, if_false]
    rw [makeMove_invalid g (-1) hinv]
  · simp [hp]

theorem isSinglePlayer_makeMove (g : TicTacToe) (p : Int) :
    (makeMove g p).2.isSinglePlayer = g.isSinglePlayer := by
  rcases makeMove_result g p with ⟨_, hm⟩ | ⟨_, i, _, _, _, _, hm⟩ <;> rw [hm]

theorem init_in_progress (singlePlayer : Bool) (cell0 : Char) :
    checkGameState (TicTacToe.TicTacToe singlePlayer cell0).board = -1 := by
  have hb : ∀ i : Fin 10, i ≠ 0 →
      (TicTacToe.TicTacToe singlePlayer cell0).board i = initialCell i := by
    intro i hi
    simp [TicTacToe.TicTacToe, hi]
  rw [checkGameState_eq_neg_one]
  constructor
  · rintro ⟨l, hl, hc⟩
    obtain ⟨h1, h2, _, h12, _, _⟩ := lines_distinct l hl
    simp only [checkLine, Bool.and_eq_true, beq_iff_eq] at hc
    rw [hb _ h1, hb _ h2] at hc
    exact h12 (initialCell_injective _ _ hc.1)
  · rw [Bool.eq_false_iff]
    intro hf
    simp only [isBoardFull, List.all_eq_true] at hf
    have h1 := hf 1 (by simp)
    rw [hb 1 (by decide)] at h1
    exact absurd h1 (by decide)

theorem mainLoop_invariant (inputs : List TurnInput) :
    ∀ (g : TicTacToe) (gameState : Int), checkGameState g.board = -1 → CellsOk g.board →
      ¬ (completeLine (mainLoop g gameState inputs).1.board 'X' = true ∧
          completeLine (mainLoop g gameState inputs).1.board 'O' = true) ∧
      CellsOk (mainLoop g gameState inputs).1.board ∧
      (mainLoop g gameState inputs).1.isSinglePlayer = g.isSinglePlayer := by
  induction inputs with
  | nil =>
    intro g gameState h hok
    refine ⟨?_, hok, rfl⟩
    rintro ⟨hx, _⟩
    simp only [mainLoop, completeLine, List.any_eq_true] at hx
    obtain ⟨l, hl, hh⟩ := hx
    have := no_line_in_progress g.board h l hl
    rw [lineHolds_checkLine _ _ _ hh] at this
    exact Bool.noConfusion this
  | cons input rest ih =>
    intro g gameState h hok
    unfold mainLoop
    split_ifs with hc h1 h2 h3 h4
    · rw [makeComputerMove_eq] at h1 ⊢
      obtain ⟨a, b, c⟩ := ih _ (checkGameState (makeMove g _).2.board) h1
        (cellsOk_makeMove g _ hok)
      exact ⟨a, b, by rw [c, isSinglePlayer_makeMove]⟩
    · rw [makeComputerMove_eq]
      exact ⟨no_double_after_move g _ h, cellsOk_makeMove g _ hok,
        isSinglePlayer_makeMove g _⟩
    · have hm : makeMove g input.position = (false, g) := by
        rcases makeMove_result g input.position with ⟨_, hm⟩ | ⟨_, i, _, _, _, _, hm⟩
        · exact hm
        · rw [hm] at h2
          simp at h2
      rw [hm]
      exact ih g gameState h hok
    · exact ⟨no_double_after_move g _ h, cellsOk_makeMove g _ hok,
        isSinglePlayer_makeMove g _⟩
    · obtain ⟨a, b, c⟩ := ih _ (checkGameState (makeMove g input.position).2.board) h4
        (cellsOk_makeMove g _ hok)
      exact ⟨a, b, by rw [c, isSinglePlayer_makeMove]⟩
    · exact ⟨no_double_after_move g _ h, cellsOk_makeMove g _ hok,
        isSinglePlayer_makeMove g _⟩

/-- C6: a state reached by the game loop never holds both a complete `'X'`
line and a complete `'O'` line; and when a move is applied in such a state with
`checkGameState` at -1, succeeds, and `checkGameState` then returns 1, every
complete line holds the mark of the player who just moved, that player has a
complete line, `getCurrentPlayer` no longer names that player, and the player
`main` announces as the winner is that player. -/
theorem loop_single_winner (choice : Int) (cell0 : Char) (gameState0 : Int)
    (inputs : List TurnInput) (p : Int) :
    ¬ (completeLine (loopState choice cell0 gameState0 inputs).board 'X' = true ∧
        completeLine (loopState choice cell0 gameState0 inputs).board 'O' = true) ∧
    (checkGameState (loopState choice cell0 gameState0 inputs).board = -1 →
      (makeMove (loopState choice cell0 gameState0 inputs) p).1 = true →
      checkGameState (makeMove (loopState choice cell0 gameState0 inputs) p).2.board = 1 →
        (∀ l ∈ lines, ∀ m : Char,
          lineHolds (makeMove (loopState choice cell0 gameState0 inputs) p).2.board m l = true →
            m = markOfPlayer (getCurrentPlayer (loopState choice cell0 gameState0 inputs))) ∧
        completeLine (makeMove (loopState choice cell0 gameState0 inputs) p).2.board
          (markOfPlayer (getCurrentPlayer (loopState choice cell0 gameState0 inputs))) = true ∧
        getCurrentPlayer (makeMove (loopState choice cell0 gameState0 inputs) p).2 ≠
          getCurrentPlayer (loopState choice cell0 gameState0 inputs) ∧
        winnerMark (announce choice (makeMove (loopState choice cell0 gameState0 inputs) p).2
            (checkGameState (makeMove (loopState choice cell0 gameState0 inputs) p).2.board)) =
          some (markOfPlayer (getCurrentPlayer (loopState choice cell0 gameState0 inputs)))) := by
  obtain ⟨hno, hok, _⟩ := mainLoop_invariant inputs (TicTacToe.TicTacToe (choice == 1) cell0)
    gameState0 (init_in_progress _ cell0) (cellsOk_init _ cell0)
  refine ⟨hno, ?_⟩
  change CellsOk (loopState choice cell0 gameState0 inputs).board at hok
  generalize loopState choice cell0 gameState0 inputs = g at hok
  intro hprog hmove hwin
  have hlines : ∀ l ∈ lines, ∀ m : Char, lineHolds (makeMove g p).2.board m l = true →
      m = markOfPlayer (getCurrentPlayer g) :=
    fun l hl m hh => line_after_move g p hprog m l hl hh
  have hturn : (makeMove g p).2.isPlayer1Turn = !g.isPlayer1Turn := by
    rcases makeMove_result g p with ⟨_, hm⟩ | ⟨_, i, _, _, _, _, hm⟩
    · rw [hm] at hmove
      exact Bool.noConfusion hmove
    · rw [hm]
  refine ⟨hlines, ?_, ?_, ?_⟩
  · have hany := (line_checked_iff _ (cellsOk_makeMove g p hok)).1
      ((checkGameState_eq_one _).1 hwin)
    obtain ⟨l, hl, hh⟩ := (anyLineComplete_iff _).1 hany
    simp only [completeLine, List.any_eq_true]
    rcases hh with hh | hh
    · exact ⟨l, hl, by rw [← hlines l hl 'X' hh]; exact hh⟩
    · exact ⟨l, hl, by rw [← hlines l hl 'O' hh]; exact hh⟩
  · simp only [getCurrentPlayer, hturn]
    by_cases ht : g.isPlayer1Turn = true <;> simp [ht]
  · rw [hwin]
    simp only [announce, getCurrentPlayer, hturn, markOfPlayer]
    by_cases ht : g.isPlayer1Turn = true <;> by_cases hc : choice = 1 <;>
      simp [ht, hc, winnerMark, markOfPlayer]

/-- Witness of C6: a two-player game in which X takes 1 and 2, O takes 4 and 5,
and X then completes the top row with 3. -/
theorem loop_single_winner_witness :
    checkGameState (loopState 2 'a' 0
        [⟨1, [], []⟩, ⟨4, [], []⟩, ⟨2, [], []⟩, ⟨5, [], []⟩]).board = -1 ∧
    (makeMove (loopState 2 'a' 0
        [⟨1, [], []⟩, ⟨4, [], []⟩, ⟨2, [], []⟩, ⟨5, [], []⟩]) 3).1 = true ∧
    checkGameState (makeMove (loopState 2 'a' 0
        [⟨1, [], []⟩, ⟨4, [], []⟩, ⟨2, [], []⟩, ⟨5, [], []⟩]) 3).2.board = 1 ∧
    completeLine (makeMove (loopState 2 'a' 0
        [⟨1, [], []⟩, ⟨4, [], []⟩, ⟨2, [], []⟩, ⟨5, [], []⟩]) 3).2.board
      (markOfPlayer (getCurrentPlayer (loopState 2 'a' 0
        [⟨1, [], []⟩, ⟨4, [], []⟩, ⟨2, [], []⟩, ⟨5, [], []⟩]))) = true :=
  ⟨by decide, by decide, by decide,
    ((loop_single_winner 2 'a' 0 [⟨1, [], []⟩, ⟨4, [], []⟩, ⟨2, [], []⟩, ⟨5, [], []⟩] 3).2
      (by decide) (by decide) (by decide)).2.1⟩

/-! ## The hypothetical move test -/

theorem lineOfMark_eq (b : Board) (m : Char) : lineOfMark b m = completeLine b m := by
  simp [lineOfMark, completeLine, lines, lineHolds, Bool.or_assoc]

theorem isWinningMoveState_board (b : Board) (m : Char) (p : Int) :
    (isWinningMoveState b m p).2 = b := by
  unfold isWinningMoveState
  split <;> rfl

theorem isWinningMove_iff (b : Board) (m : Char) (p : Int) :
    isWinningMove b m p = true ↔
      ∃ i : Fin 10, (i.val : Int) = p ∧ isValidMove b p = true ∧
        completeLine (b.set i m) m = true := by
  unfold isWinningMove isWinningMoveState
  split
  · rename_i h
    constructor
    · intro hf
      exact Bool.noConfusion hf
    · rintro ⟨_, _, hv, _⟩
      rw [h] at hv
      exact Bool.noConfusion hv
  · rename_i h
    have hv : isValidMove b p = true := by simpa using h
    have hr := isValidMove_range b p hv
    simp only [lineOfMark_eq]
    constructor
    · intro hw
      exact ⟨cellIndex p hr, cellIndex_val p hr, hv, hw⟩
    · rintro ⟨i, hi, _, hw⟩
      rw [cellIndex_eq_of_val p _ i hi]
      exact hw

theorem isWinningMove_valid (b : Board) (m : Char) (p : Int) (h : isWinningMove b m p = true) :
    isValidMove b p = true := by
  obtain ⟨_, _, hv, _⟩ := (isWinningMove_iff b m p).1 h
  exact hv

theorem lines_after_set (b : Board) (h : checkGameState b = -1) (i : Fin 10) (m : Char)
    (l : Fin 10 × Fin 10 × Fin 10) (hl : l ∈ lines) (c : Char)
    (hh : lineHolds (b.set i m) c l = true) : c = m :=
  (lineHolds_set b i m c l (no_line_in_progress b h l hl) hh).1

theorem win_after_set (b : Board) (hok : CellsOk b) (h : checkGameState b = -1) (i : Fin 10)
    (m : Char) (hm : m = 'X' ∨ m = 'O') :
    checkGameState (b.set i m) = 1 ↔ completeLine (b.set i m) m = true := by
  rw [checkGameState_eq_one, line_checked_iff _ (cellsOk_set b hok i m hm), anyLineComplete_iff]
  simp only [completeLine, List.any_eq_true]
  constructor
  · rintro ⟨l, hl, hh | hh⟩
    · have e := lines_after_set b h i m l hl 'X' hh
      rw [e] at hh
      exact ⟨l, hl, hh⟩
    · have e := lines_after_set b h i m l hl 'O' hh
      rw [e] at hh
      exact ⟨l, hl, hh⟩
  · rintro ⟨l, hl, hh⟩
    rcases hm with hm | hm
    · exact ⟨l, hl, Or.inl (by rw [← hm]; exact hh)⟩
    · exact ⟨l, hl, Or.inr (by rw [← hm]; exact hh)⟩

/-- C7: on a reachable board with `checkGameState` at -1, for a mark `m` in
`{'X', 'O'}` and any integer position `p`, `isWinningMove(m, p)` is true exactly
when `isValidMove(p)` holds and `checkGameState` returns 1 on the board with
cell `p` set to `m`; in that case a line holds three `m` and every complete
line holds `m`; the call leaves the member `board` as it was. -/
theorem isWinningMove_refines (singlePlayer : Bool) (cell0 : Char) (moves : List Int)
    (m : Char) (p : Int)
    (hprog : checkGameState (runMoves (TicTacToe.TicTacToe singlePlayer cell0) moves).1.board = -1)
    (hm : m = 'X' ∨ m = 'O') :
    (isWinningMove (runMoves (TicTacToe.TicTacToe singlePlayer cell0) moves).1.board m p = true ↔
      isValidMove (runMoves (TicTacToe.TicTacToe singlePlayer cell0) moves).1.board p = true ∧
      ∃ i : Fin 10, (i.val : Int) = p ∧
        checkGameState
          ((runMoves (TicTacToe.TicTacToe singlePlayer cell0) moves).1.board.set i m) = 1) ∧
    (∀ i : Fin 10, (i.val : Int) = p →
      checkGameState
          ((runMoves (TicTacToe.TicTacToe singlePlayer cell0) moves).1.board.set i m) = 1 →
        completeLine
          ((runMoves (TicTacToe.TicTacToe singlePlayer cell0) moves).1.board.set i m) m = true ∧
        ∀ l ∈ lines, ∀ c : Char,
          lineHolds
            ((runMoves (TicTacToe.TicTacToe singlePlayer cell0) moves).1.board.set i m) c l = true →
            c = m) ∧
    (isWinningMoveState (runMoves (TicTacToe.TicTacToe singlePlayer cell0) moves).1.board m p).2 =
      (runMoves (TicTacToe.TicTacToe singlePlayer cell0) moves).1.board := by
  have hok := cellsOk_runMoves moves _ (cellsOk_init singlePlayer cell0)
  generalize (runMoves (TicTacToe.TicTacToe singlePlayer cell0) moves).1.board = b at hok hprog
  refine ⟨?_, ?_, isWinningMoveState_board b m p⟩
  · rw [isWinningMove_iff]
    constructor
    · rintro ⟨i, hi, hv, hw⟩
      exact ⟨hv, i, hi, (win_after_set b hok hprog i m hm).2 hw⟩
    · rintro ⟨hv, i, hi, hw⟩
      exact ⟨i, hi, hv, (win_after_set b hok hprog i m hm).1 hw⟩
  · intro i _ hw
    exact ⟨(win_after_set b hok hprog i m hm).1 hw,
      fun l hl c hh => lines_after_set b hprog i m l hl c hh⟩

/-- Witness of C7: after the moves 1, 4, 2, 5 the position 3 wins for `'X'`. -/
theorem isWinningMove_refines_witness :
    checkGameState (runMoves (TicTacToe.TicTacToe false 'a') [1, 4, 2, 5]).1.board = -1 ∧
    (isWinningMove (runMoves (TicTacToe.TicTacToe false 'a') [1, 4, 2, 5]).1.board 'X' 3 = true ↔
      isValidMove (runMoves (TicTacToe.TicTacToe false 'a') [1, 4, 2, 5]).1.board 3 = true ∧
      ∃ i : Fin 10, (i.val : Int) = 3 ∧
        checkGameState
          ((runMoves (TicTacToe.TicTacToe false 'a') [1, 4, 2, 5]).1.board.set i 'X') = 1) ∧
    isWinningMove (runMoves (TicTacToe.TicTacToe false 'a') [1, 4, 2, 5]).1.board 'X' 3 = true :=
  ⟨by decide,
    (isWinningMove_refines false 'a' [1, 4, 2, 5] 'X' 3 (by decide) (Or.inl rfl)).1,
    by decide⟩

/-! ## The computer's move -/

theorem mem_cells (i : Fin 10) : i ∈ cells ↔ i ≠ 0 := by
  revert i
  decide

theorem isMark_false_iff (c : Char) : isMark c = false ↔ c ≠ 'X' ∧ c ≠ 'O' := by
  simp [isMark]

theorem isValidMove_iff_cells (b : Board) (p : Int) :
    isValidMove b p = true ↔ ∃ i ∈ cells, (i.val : Int) = p ∧ isMark (b i) = false := by
  rw [isValidMove_iff]
  constructor
  · rintro ⟨i, hi, h0, hx, ho⟩
    exact ⟨i, (mem_cells i).2 h0, hi, (isMark_false_iff _).2 ⟨hx, ho⟩⟩
  · rintro ⟨i, hc, hi, hm⟩
    have := (isMark_false_iff _).1 hm
    exact ⟨i, hi, (mem_cells i).1 hc, this.1, this.2⟩

theorem mem_positions (q : Int) (h1 : 1 ≤ q) (h9 : q ≤ 9) :
    q ∈ ([1, 2, 3, 4, 5, 6, 7, 8, 9] : List Int) := by
  simp only [List.mem_cons, List.mem_singleton, List.not_mem_nil, or_false]
  omega

theorem find?_least (f : Int → Bool) (xs : List Int) (hs : xs.Pairwise (fun a c => a < c))
    (r : Int) (h : xs.find? f = some r) (q : Int) (hq : q ∈ xs) (hf : f q = true) : r ≤ q := by
  obtain ⟨_, as, bs, rfl, hno⟩ := List.find?_eq_some.1 h
  rw [List.pairwise_append] at hs
  obtain ⟨_, hbs, _⟩ := hs
  simp only [List.mem_append, List.mem_cons] at hq
  rcases hq with hq | hq | hq
  · have := hno q hq
    rw [hf] at this
    exact Bool.noConfusion this
  · exact le_of_eq hq.symm
  · exact le_of_lt ((List.pairwise_cons.1 hbs).1 q hq)

theorem positions_sorted :
    ([1, 2, 3, 4, 5, 6, 7, 8, 9] : List Int).Pairwise (fun a c => a < c) := by
  simp

theorem firstWin_some (b : Board) (m : Char) (p : Int) (h : isWinningMove b m p = true) :
    ∃ r, ([1, 2, 3, 4, 5, 6, 7, 8, 9] : List Int).find? (fun i => isWinningMove b m i) = some r ∧
      isWinningMove b m r = true ∧ ∀ q, isWinningMove b m q = true → r ≤ q := by
  have hr := isValidMove_range b p (isWinningMove_valid b m p h)
  cases hfind : ([1, 2, 3, 4, 5, 6, 7, 8, 9] : List Int).find? (fun i => isWinningMove b m i) with
  | none =>
    rw [List.find?_eq_none] at hfind
    exact absurd h (hfind p (mem_positions p hr.1 hr.2))
  | some r =>
    refine ⟨r, rfl, List.find?_some hfind, ?_⟩
    intro q hq
    have hqr := isValidMove_range b q (isWinningMove_valid b m q hq)
    exact find?_least _ _ positions_sorted r hfind q (mem_positions q hqr.1 hqr.2) hq

theorem firstWin_none (b : Board) (m : Char)
    (h : ∀ q ∈ ([1, 2, 3, 4, 5, 6, 7, 8, 9] : List Int), isWinningMove b m q = false) :
    ([1, 2, 3, 4, 5, 6, 7, 8, 9] : List Int).find? (fun i => isWinningMove b m i) = none := by
  rw [List.find?_eq_none]
  intro q hq
  rw [h q hq]
  exact Bool.false_ne_true

theorem getComputerMove_valid_or (b : Board) (corners sides : List Int) :
    getComputerMove b corners sides = -1 ∨
      isValidMove b (getComputerMove b corners sides) = true := by
  unfold getComputerMove
  split
  · rename_i i hi
    exact Or.inr (isWinningMove_valid _ _ _ (List.find?_some hi))
  · split
    · rename_i i hi
      exact Or.inr (isWinningMove_valid _ _ _ (List.find?_some hi))
    · split
      · rename_i h5
        exact Or.inr h5
      · split
        · rename_i c hc
          exact Or.inr (List.find?_some hc)
        · split
          · rename_i c hc
            exact Or.inr (List.find?_some hc)
          · exact Or.inl rfl

theorem getComputerMove_none (b : Board) (corners sides : List Int)
    (hc : corners.Perm [1, 3, 7, 9]) (hs : sides.Perm [2, 4, 6, 8])
    (h : getComputerMove b corners sides = -1) (q : Int) : isValidMove b q = false := by
  have hneg : isValidMove b (-1) = false := by
    rw [Bool.eq_false_iff]
    intro hv
    have := isValidMove_range _ _ hv
    omega
  have key : isValidMove b 5 = false ∧ (∀ c ∈ corners, isValidMove b c = false) ∧
      (∀ c ∈ sides, isValidMove b c = false) := by
    unfold getComputerMove at h
    split at h
    · rename_i i hi
      have hv := isWinningMove_valid _ _ _ (List.find?_some hi)
      rw [h, hneg] at hv
      exact Bool.noConfusion hv
    · split at h
      · rename_i i hi
        have hv := isWinningMove_valid _ _ _ (List.find?_some hi)
        rw [h, hneg] at hv
        exact Bool.noConfusion hv
      · split at h
        · omega
        · rename_i h5
          split at h
          · rename_i c hcf
            have hv := List.find?_some hcf
            rw [h, hneg] at hv
            exact Bool.noConfusion hv
          · rename_i hcn
            split at h
            · rename_i c hsf
              have hv := List.find?_some hsf
              rw [h, hneg] at hv
              exact Bool.noConfusion hv
            · rename_i hsn
              rw [List.find?_eq_none] at hcn hsn
              exact ⟨by simpa using h5, fun c hm => by simpa using hcn c hm,
                fun c hm => by simpa using hsn c hm⟩
  obtain ⟨h5, hcor, hsid⟩ := key
  rw [Bool.eq_false_iff]
  intro hv
  have hr := isValidMove_range b q hv
  have hq : q = 5 ∨ q ∈ ([1, 3, 7, 9] : List Int) ∨ q ∈ ([2, 4, 6, 8] : List Int) := by
    simp only [List.mem_cons, List.mem_singleton, List.not_mem_nil, or_false]
    omega
  rcases hq with hq | hq | hq
  · rw [hq, h5] at hv
    exact Bool.noConfusion hv
  · rw [hcor q (hc.mem_iff.2 hq)] at hv
    exact Bool.noConfusion hv
  · rw [hsid q (hs.mem_iff.2 hq)] at hv
    exact Bool.noConfusion hv

theorem getComputerMove_full (b : Board) (corners sides : List Int)
    (h : ∀ q : Int, isValidMove b q = false) : getComputerMove b corners sides = -1 := by
  have hw : ∀ (m : Char) (q : Int), isWinningMove b m q = false := by
    intro m q
    rw [Bool.eq_false_iff]
    intro hq
    have := isWinningMove_valid b m q hq
    rw [h q] at this
    exact Bool.noConfusion this
  unfold getComputerMove
  rw [firstWin_none b PLAYER2_MARK (fun q _ => hw _ q),
    firstWin_none b PLAYER1_MARK (fun q _ => hw _ q)]
  have hcn : corners.find? (fun corner => isValidMove b corner) = none := by
    rw [List.find?_eq_none]
    intro c _
    rw [h c]
    exact Bool.false_ne_true
  have hsn : sides.find? (fun side => isValidMove b side) = none := by
    rw [List.find?_eq_none]
    intro c _
    rw [h c]
    exact Bool.false_ne_true
  simp only [h 5, hcn, hsn, Bool.false_eq_true, if_false]

theorem getComputerMove_accepted (b : Board) (corners sides : List Int)
    (hc : corners.Perm [1, 3, 7, 9]) (hs : sides.Perm [2, 4, 6, 8])
    (h : ∃ i ∈ cells, isMark (b i) = false) :
    isValidMove b (getComputerMove b corners sides) = true := by
  obtain ⟨i, hi, hm⟩ := h
  rcases getComputerMove_valid_or b corners sides with hneg | hv
  · have hinv := getComputerMove_none b corners sides hc hs hneg (i.val : Int)
    rw [(isValidMove_iff_cells b _).2 ⟨i, hi, rfl, hm⟩] at hinv
    exact Bool.noConfusion hinv
  · exact hv

/-- C8: for every board and every ordering of the corners and of the sides, if
some cell is empty then `getComputerMove` returns a position in `1..9` whose
cell is empty, so that `isValidMove` accepts it; and it returns -1 exactly when
no cell is empty. -/
theorem getComputerMove_empty_cell (b : Board) (corners sides : List Int)
    (hc : corners.Perm [1, 3, 7, 9]) (hs : sides.Perm [2, 4, 6, 8]) :
    ((∃ i ∈ cells, isMark (b i) = false) →
      1 ≤ getComputerMove b corners sides ∧ getComputerMove b corners sides ≤ 9 ∧
      isValidMove b (getComputerMove b corners sides) = true ∧
      ∃ i ∈ cells, (i.val : Int) = getComputerMove b corners sides ∧ isMark (b i) = false) ∧
    (getComputerMove b corners sides = -1 ↔ ∀ i ∈ cells, isMark (b i) = true) := by
  have hiff : getComputerMove b corners sides = -1 ↔ ∀ i ∈ cells, isMark (b i) = true := by
    constructor
    · intro h i hi
      have hv := getComputerMove_none b corners sides hc hs h (i.val : Int)
      cases hm : isMark (b i)
      · rw [(isValidMove_iff_cells b _).2 ⟨i, hi, rfl, hm⟩] at hv
        exact Bool.noConfusion hv
      · rfl
    · intro h
      apply getComputerMove_full
      intro q
      rw [Bool.eq_false_iff]
      intro hv
      obtain ⟨i, hi, _, hm⟩ := (isValidMove_iff_cells b q).1 hv
      rw [h i hi] at hm
      exact Bool.noConfusion hm
  refine ⟨?_, hiff⟩
  rintro ⟨i, hi, hm⟩
  rcases getComputerMove_valid_or b corners sides with h | h
  · have := hiff.1 h i hi
    rw [hm] at this
    exact Bool.noConfusion this
  · have hr := isValidMove_range _ _ h
    exact ⟨hr.1, hr.2, h, (isValidMove_iff_cells b _).1 h⟩

/-- Witness of C8: the fresh board with the arrays left in their written order. -/
theorem getComputerMove_empty_cell_witness :
    ([1, 3, 7, 9] : List Int).Perm [1, 3, 7, 9] ∧ ([2, 4, 6, 8] : List Int).Perm [2, 4, 6, 8] ∧
    (getComputerMove (TicTacToe.TicTacToe true 'a').board [1, 3, 7, 9] [2, 4, 6, 8] = -1 ↔
      ∀ i ∈ cells, isMark ((TicTacToe.TicTacToe true 'a').board i) = true) ∧
    isValidMove (TicTacToe.TicTacToe true 'a').board
      (getComputerMove (TicTacToe.TicTacToe true 'a').board [1, 3, 7, 9] [2, 4, 6, 8]) = true :=
  ⟨List.Perm.refl _, List.Perm.refl _,
    (getComputerMove_empty_cell (TicTacToe.TicTacToe true 'a').board [1, 3, 7, 9] [2, 4, 6, 8]
      (List.Perm.refl _) (List.Perm.refl _)).2,
    by decide⟩

/-! ## Winning and blocking -/

theorem completesLine_iff (b : Board) (m : Char) (t : Fin 10) :
    completesLine b m t = true ↔
      isMark (b t) = false ∧ ∃ l ∈ lines,
        (t = l.1 ∧ b l.2.1 = m ∧ b l.2.2 = m) ∨
        (t = l.2.1 ∧ b l.1 = m ∧ b l.2.2 = m) ∨
        (t = l.2.2 ∧ b l.1 = m ∧ b l.2.1 = m) := by
  simp only [completesLine, Bool.and_eq_true, Bool.not_eq_true', List.any_eq_true,
    Bool.or_eq_true, beq_iff_eq, and_assoc, or_assoc]

theorem completesLine_wins (b : Board) (m : Char) (t : Fin 10)
    (h : completesLine b m t = true) : isWinningMove b m (t.val : Int) = true := by
  obtain ⟨hm, l, hl, hcase⟩ := (completesLine_iff b m t).1 h
  obtain ⟨h1, h2, h3, h12, h23, h13⟩ := lines_distinct l hl
  have hline : lineHolds (b.set t m) m l = true ∧ t ≠ 0 := by
    simp only [lineHolds, Bool.and_eq_true, beq_iff_eq]
    rcases hcase with ⟨e, ha, hb⟩ | ⟨e, ha, hb⟩ | ⟨e, ha, hb⟩
    · subst e
      exact ⟨⟨⟨set_same _ _ _, by rw [set_other _ _ _ _ (Ne.symm h12), ha]⟩,
        by rw [set_other _ _ _ _ (Ne.symm h13), hb]⟩, h1⟩
    · subst e
      exact ⟨⟨⟨by rw [set_other _ _ _ _ h12, ha], set_same _ _ _⟩,
        by rw [set_other _ _ _ _ (Ne.symm h23), hb]⟩, h2⟩
    · subst e
      exact ⟨⟨⟨by rw [set_other _ _ _ _ h13, ha], by rw [set_other _ _ _ _ h23, hb]⟩,
        set_same _ _ _⟩, h3⟩
  rw [isWinningMove_iff]
  refine ⟨t, rfl, (isValidMove_iff_cells b _).2 ⟨t, (mem_cells t).2 hline.2, rfl, hm⟩, ?_⟩
  simp only [completeLine, List.any_eq_true]
  exact ⟨l, hl, hline.1⟩

theorem wins_completesLine (b : Board) (m : Char) (q : Int)
    (hno : completeLine b m = false) (h : isWinningMove b m q = true) :
    ∃ t : Fin 10, (t.val : Int) = q ∧ completesLine b m t = true := by
  obtain ⟨i, hi, hv, hw⟩ := (isWinningMove_iff b m q).1 h
  obtain ⟨k, _, hk, hmk⟩ := (isValidMove_iff_cells b q).1 hv
  have hki : k = i := Fin.ext (by omega)
  subst hki
  simp only [completeLine, List.any_eq_true] at hw
  obtain ⟨l, hl, hh⟩ := hw
  have hold : lineHolds b m l = false := by
    rw [Bool.eq_false_iff]
    intro hb
    have : completeLine b m = true := by
      simp only [completeLine, List.any_eq_true]
      exact ⟨l, hl, hb⟩
    rw [hno] at this
    exact Bool.noConfusion this
  obtain ⟨h1, h2, h3, h12, h23, h13⟩ := lines_distinct l hl
  refine ⟨k, hi, (completesLine_iff b m k).2 ⟨hmk, l, hl, ?_⟩⟩
  simp only [lineHolds, Bool.and_eq_true, beq_iff_eq] at hh
  obtain ⟨⟨c1, c2⟩, c3⟩ := hh
  by_cases e1 : l.1 = k
  · rw [set_other _ _ _ _ (fun e => h12 (e1.trans e.symm))] at c2
    rw [set_other _ _ _ _ (fun e => h13 (e1.trans e.symm))] at c3
    exact Or.inl ⟨e1.symm, c2, c3⟩
  · rw [set_other _ _ _ _ e1] at c1
    by_cases e2 : l.2.1 = k
    · rw [set_other _ _ _ _ (fun e => h23 (e2.trans e.symm))] at c3
      exact Or.inr (Or.inl ⟨e2.symm, c1, c3⟩)
    · rw [set_other _ _ _ _ e2] at c2
      by_cases e3 : l.2.2 = k
      · exact Or.inr (Or.inr ⟨e3.symm, c1, c2⟩)
      · rw [set_other _ _ _ _ e3] at c3
        exfalso
        have : lineHolds b m l = true := by
          simp [lineHolds, c1, c2, c3]
        rw [hold] at this
        exact Bool.noConfusion this

theorem getComputerMove_win (b : Board) (corners sides : List Int) (r : Int)
    (h : ([1, 2, 3, 4, 5, 6, 7, 8, 9] : List Int).find?
      (fun i => isWinningMove b 'O' i) = some r) :
    getComputerMove b corners sides = r := by
  unfold getComputerMove
  simp only [PLAYER2_MARK, h]

theorem getComputerMove_block (b : Board) (corners sides : List Int) (r : Int)
    (hO : ([1, 2, 3, 4, 5, 6, 7, 8, 9] : List Int).find?
      (fun i => isWinningMove b 'O' i) = none)
    (h : ([1, 2, 3, 4, 5, 6, 7, 8, 9] : List Int).find?
      (fun i => isWinningMove b 'X' i) = some r) :
    getComputerMove b corners sides = r := by
  unfold getComputerMove
  simp only [PLAYER2_MARK, PLAYER1_MARK, hO, h]

theorem winning_cell (b : Board) (m : Char) (r : Int) (h : isWinningMove b m r = true) :
    ∃ i ∈ cells, (i.val : Int) = r ∧ isMark (b i) = false ∧
      completeLine (b.set i m) m = true := by
  obtain ⟨i, hi, hv, hw⟩ := (isWinningMove_iff b m r).1 h
  obtain ⟨k, hkc, hk, hmk⟩ := (isValidMove_iff_cells b r).1 hv
  have hki : k = i := Fin.ext (by omega)
  subst hki
  exact ⟨k, hkc, hi, hmk, hw⟩

/-- C9, as the code has it: on every board on which no `'O'` line is already
complete and `isWinningMove('O', p)` is true for some position `p`, for every
content of the two shuffled arrays, `getComputerMove` returns a position that
completes an `'O'` line: the empty third cell of a line whose other two cells
hold `'O'`, and the lowest-numbered such cell; it is also the lowest-numbered
position with `isWinningMove('O', ·)` true, and the board with `'O'` on it has a
complete `'O'` line. -/
theorem getComputerMove_takes_win (b : Board) (corners sides : List Int) (p : Int)
    (hno : completeLine b 'O' = false) (h : isWinningMove b 'O' p = true) :
    (∃ t : Fin 10, (t.val : Int) = getComputerMove b corners sides ∧
      completesLine b 'O' t = true) ∧
    (∀ u : Fin 10, completesLine b 'O' u = true →
      getComputerMove b corners sides ≤ (u.val : Int)) ∧
    isWinningMove b 'O' (getComputerMove b corners sides) = true ∧
    (∀ q : Int, isWinningMove b 'O' q = true → getComputerMove b corners sides ≤ q) ∧
    (∃ i ∈ cells, (i.val : Int) = getComputerMove b corners sides ∧ isMark (b i) = false ∧
      completeLine (b.set i 'O') 'O' = true) := by
  obtain ⟨r, hfind, hwin, hleast⟩ := firstWin_some b 'O' p h
  rw [getComputerMove_win b corners sides r hfind]
  exact ⟨wins_completesLine b 'O' r hno hwin,
    fun u hu => hleast _ (completesLine_wins b 'O' u hu), hwin, hleast,
    winning_cell b 'O' r hwin⟩

/-- Witness of C9: `'X'` on 1, 2 and 4, `'O'` on 7 and 9, center empty, no
complete line; `'X'` could win on 3, and the computer completes 7-8-9 on 8. -/
theorem getComputerMove_takes_win_witness :
    completeLine (runMoves (TicTacToe.TicTacToe true 'a') [1, 7, 2, 9, 4]).1.board 'O' = false ∧
    isWinningMove (runMoves (TicTacToe.TicTacToe true 'a') [1, 7, 2, 9, 4]).1.board 'O' 8 = true ∧
    isWinningMove (runMoves (TicTacToe.TicTacToe true 'a') [1, 7, 2, 9, 4]).1.board 'X' 3 = true ∧
    isValidMove (runMoves (TicTacToe.TicTacToe true 'a') [1, 7, 2, 9, 4]).1.board 5 = true ∧
    getComputerMove (runMoves (TicTacToe.TicTacToe true 'a') [1, 7, 2, 9, 4]).1.board
      [9, 7, 3, 1] [8, 6, 4, 2] = 8 ∧
    completesLine (runMoves (TicTacToe.TicTacToe true 'a') [1, 7, 2, 9, 4]).1.board 'O' 8 = true ∧
    ∃ t : Fin 10,
      (t.val : Int) =
        getComputerMove (runMoves (TicTacToe.TicTacToe true 'a') [1, 7, 2, 9, 4]).1.board
          [9, 7, 3, 1] [8, 6, 4, 2] ∧
      completesLine (runMoves (TicTacToe.TicTacToe true 'a') [1, 7, 2, 9, 4]).1.board 'O' t
        = true :=
  ⟨by decide, by decide, by decide, by decide, by decide, by decide,
    (getComputerMove_takes_win (runMoves (TicTacToe.TicTacToe true 'a') [1, 7, 2, 9, 4]).1.board
      [9, 7, 3, 1] [8, 6, 4, 2] 8 (by decide) (by decide)).1⟩

/-- Counterexample to C9 as stated: after the six accepted calls 1, 4, 2, 5, 7, 6
the board holds `'X'` on 1, 2, 7 and the complete `'O'` line 4-5-6.  The empty
position 3 has `isWinningMove('O', 3)` true, `getComputerMove` returns 3, and 3
is not the third cell of any line whose other two cells hold `'O'`: no position
completes an `'O'` line on this board. -/
theorem takes_win_completes_no_line :
    (runMoves (TicTacToe.TicTacToe true 'a') [1, 4, 2, 5, 7, 6]).2 =
      [true, true, true, true, true, true] ∧
    isMark ((runMoves (TicTacToe.TicTacToe true 'a') [1, 4, 2, 5, 7, 6]).1.board 3) = false ∧
    isWinningMove (runMoves (TicTacToe.TicTacToe true 'a') [1, 4, 2, 5, 7, 6]).1.board 'O' 3
      = true ∧
    getComputerMove (runMoves (TicTacToe.TicTacToe true 'a') [1, 4, 2, 5, 7, 6]).1.board
      [1, 3, 7, 9] [2, 4, 6, 8] = 3 ∧
    completesLine (runMoves (TicTacToe.TicTacToe true 'a') [1, 4, 2, 5, 7, 6]).1.board 'O' 3
      = false ∧
    (∀ u : Fin 10,
      completesLine (runMoves (TicTacToe.TicTacToe true 'a') [1, 4, 2, 5, 7, 6]).1.board 'O' u
        = false) ∧
    completeLine (runMoves (TicTacToe.TicTacToe true 'a') [1, 4, 2, 5, 7, 6]).1.board 'O'
      = true := by
  decide

/-- C10, as the code has it: on every board on which no `'X'` line is already
complete, no position is an immediate win for `'O'` and `'X'` holds two cells of
a line whose third cell `t` is empty, for every content of the two shuffled
arrays, `getComputerMove` returns a position that would complete an `'X'` line:
the empty third cell of a line whose other two cells hold `'X'`, the
lowest-numbered such cell, so at most `t` and `t` itself when `t` is the only
one; it is also the lowest-numbered position with `isWinningMove('X', ·)` true,
and the board with `'X'` on it has a complete `'X'` line. -/
theorem getComputerMove_blocks (b : Board) (corners sides : List Int) (t : Fin 10)
    (hno : completeLine b 'X' = false)
    (hO : ∀ q ∈ ([1, 2, 3, 4, 5, 6, 7, 8, 9] : List Int), isWinningMove b 'O' q = false)
    (ht : completesLine b 'X' t = true) :
    (∃ u : Fin 10, (u.val : Int) = getComputerMove b corners sides ∧
      completesLine b 'X' u = true) ∧
    (∀ u : Fin 10, completesLine b 'X' u = true →
      getComputerMove b corners sides ≤ (u.val : Int)) ∧
    getComputerMove b corners sides ≤ (t.val : Int) ∧
    ((∀ u : Fin 10, completesLine b 'X' u = true → u = t) →
      getComputerMove b corners sides = (t.val : Int)) ∧
    isWinningMove b 'X' (getComputerMove b corners sides) = true ∧
    (∀ q : Int, isWinningMove b 'X' q = true → getComputerMove b corners sides ≤ q) ∧
    ((∀ q : Int, isWinningMove b 'X' q = true → q = (t.val : Int)) →
      getComputerMove b corners sides = (t.val : Int)) ∧
    (∃ i ∈ cells, (i.val : Int) = getComputerMove b corners sides ∧ isMark (b i) = false ∧
      completeLine (b.set i 'X') 'X' = true) := by
  have hwt := completesLine_wins b 'X' t ht
  obtain ⟨r, hfind, hwin, hleast⟩ := firstWin_some b 'X' (t.val : Int) hwt
  rw [getComputerMove_block b corners sides r (firstWin_none b 'O' hO) hfind]
  obtain ⟨u, hu, hcu⟩ := wins_completesLine b 'X' r hno hwin
  refine ⟨⟨u, hu, hcu⟩, fun v hv => hleast _ (completesLine_wins b 'X' v hv), hleast _ hwt,
    fun honly => ?_, hwin, hleast, fun honly => honly r hwin, winning_cell b 'X' r hwin⟩
  rw [← hu, honly u hcu]

/-- Witness of C10: `'X'` on 1 and 2, `'O'` on 9, center empty, no complete
line; the computer blocks on 3. -/
theorem getComputerMove_blocks_witness :
    completeLine (runMoves (TicTacToe.TicTacToe true 'a') [1, 9, 2]).1.board 'X' = false ∧
    (∀ q ∈ ([1, 2, 3, 4, 5, 6, 7, 8, 9] : List Int),
      isWinningMove (runMoves (TicTacToe.TicTacToe true 'a') [1, 9, 2]).1.board 'O' q = false) ∧
    completesLine (runMoves (TicTacToe.TicTacToe true 'a') [1, 9, 2]).1.board 'X' 3 = true ∧
    isValidMove (runMoves (TicTacToe.TicTacToe true 'a') [1, 9, 2]).1.board 5 = true ∧
    getComputerMove (runMoves (TicTacToe.TicTacToe true 'a') [1, 9, 2]).1.board
      [7, 1, 9, 3] [2, 8, 4, 6] = 3 ∧
    ∃ u : Fin 10,
      (u.val : Int) =
        getComputerMove (runMoves (TicTacToe.TicTacToe true 'a') [1, 9, 2]).1.board
          [7, 1, 9, 3] [2, 8, 4, 6] ∧
      completesLine (runMoves (TicTacToe.TicTacToe true 'a') [1, 9, 2]).1.board 'X' u = true :=
  ⟨by decide, by decide, by decide, by decide, by decide,
    (getComputerMove_blocks (runMoves (TicTacToe.TicTacToe true 'a') [1, 9, 2]).1.board
      [7, 1, 9, 3] [2, 8, 4, 6] 3 (by decide) (by decide) (by decide)).1⟩

/-- Counterexample to C10 as stated: after the seven accepted calls 1, 4, 2, 5,
6, 7, 3 the board holds the complete `'X'` line 1-2-3, `'X'` on 6 and `'O'` on 4,
5, 7, with the computer to move.  No position is an immediate win for `'O'`,
`'X'` holds 3 and 6 of the line 3-6-9 whose third cell 9 is empty, and 9 is the
only cell that would complete an `'X'` line; `getComputerMove` returns 8, which
completes none. -/
theorem block_completes_no_line :
    (runMoves (TicTacToe.TicTacToe true 'a') [1, 4, 2, 5, 6, 7, 3]).2 =
      [true, true, true, true, true, true, true] ∧
    isComputerTurn (runMoves (TicTacToe.TicTacToe true 'a') [1, 4, 2, 5, 6, 7, 3]).1 = true ∧
    (∀ q ∈ ([1, 2, 3, 4, 5, 6, 7, 8, 9] : List Int),
      isWinningMove (runMoves (TicTacToe.TicTacToe true 'a') [1, 4, 2, 5, 6, 7, 3]).1.board
        'O' q = false) ∧
    completesLine (runMoves (TicTacToe.TicTacToe true 'a') [1, 4, 2, 5, 6, 7, 3]).1.board 'X' 9
      = true ∧
    (∀ u : Fin 10,
      completesLine (runMoves (TicTacToe.TicTacToe true 'a') [1, 4, 2, 5, 6, 7, 3]).1.board
        'X' u = true → u = 9) ∧
    getComputerMove (runMoves (TicTacToe.TicTacToe true 'a') [1, 4, 2, 5, 6, 7, 3]).1.board
      [1, 3, 7, 9] [2, 4, 6, 8] = 8 ∧
    completesLine (runMoves (TicTacToe.TicTacToe true 'a') [1, 4, 2, 5, 6, 7, 3]).1.board 'X' 8
      = false ∧
    completeLine (runMoves (TicTacToe.TicTacToe true 'a') [1, 4, 2, 5, 6, 7, 3]).1.board 'X'
      = true := by
  decide

/-! ## The fresh game -/

theorem init_cell (singlePlayer : Bool) (cell0 : Char) (i : Fin 10) (hi : i ≠ 0) :
    (TicTacToe.TicTacToe singlePlayer cell0).board i = initialCell i := by
  simp [TicTacToe.TicTacToe, hi]

theorem init_not_mark (singlePlayer : Bool) (cell0 : Char) (i : Fin 10) (hi : i ∈ cells) :
    isMark ((TicTacToe.TicTacToe singlePlayer cell0).board i) = false := by
  rw [init_cell singlePlayer cell0 i ((mem_cells i).1 hi), isMark_false_iff]
  exact initialCell_not_mark i

theorem init_valid (singlePlayer : Bool) (cell0 : Char) (p : Int) (h1 : 1 ≤ p) (h9 : p ≤ 9) :
    isValidMove (TicTacToe.TicTacToe singlePlayer cell0).board p = true := by
  have hc : cellIndex p ⟨h1, h9⟩ ∈ cells := (mem_cells _).2 (cellIndex_ne_zero p ⟨h1, h9⟩)
  exact (isValidMove_iff_cells _ p).2
    ⟨cellIndex p ⟨h1, h9⟩, hc, cellIndex_val p ⟨h1, h9⟩, init_not_mark singlePlayer cell0 _ hc⟩

theorem markCount_init (singlePlayer : Bool) (cell0 : Char) :
    markCount (TicTacToe.TicTacToe singlePlayer cell0).board = 0 := by
  unfold markCount
  rw [List.countP_eq_zero]
  intro i hi
  rw [init_not_mark singlePlayer cell0 i hi]
  exact Bool.false_ne_true

/-- C14: in either game mode the freshly constructed game has all 9 cells empty,
so that `isValidMove(p)` is true for every `p` in `1..9`, has player 1 as the
turn-holder (`getCurrentPlayer()` is 1 and `isComputerTurn()` is false), and
`checkGameState` returns -1. -/
theorem fresh_game (singlePlayer : Bool) (cell0 : Char) :
    (∀ i ∈ cells, isMark ((TicTacToe.TicTacToe singlePlayer cell0).board i) = false) ∧
    markCount (TicTacToe.TicTacToe singlePlayer cell0).board = 0 ∧
    (∀ p : Int, 1 ≤ p → p ≤ 9 →
      isValidMove (TicTacToe.TicTacToe singlePlayer cell0).board p = true) ∧
    getCurrentPlayer (TicTacToe.TicTacToe singlePlayer cell0) = 1 ∧
    isComputerTurn (TicTacToe.TicTacToe singlePlayer cell0) = false ∧
    (TicTacToe.TicTacToe singlePlayer cell0).isSinglePlayer = singlePlayer ∧
    anyLineComplete (TicTacToe.TicTacToe singlePlayer cell0).board = false ∧
    checkGameState (TicTacToe.TicTacToe singlePlayer cell0).board = -1 := by
  refine ⟨init_not_mark singlePlayer cell0, markCount_init singlePlayer cell0,
    init_valid singlePlayer cell0, rfl, ?_, rfl, ?_, init_in_progress singlePlayer cell0⟩
  · simp [isComputerTurn, TicTacToe.TicTacToe]
  · rw [Bool.eq_false_iff]
    intro hany
    exact ((checkGameState_eq_neg_one _).1 (init_in_progress singlePlayer cell0)).1
      ((line_checked_iff _ (cellsOk_init singlePlayer cell0)).2 hany)

/-! ## The rules below win and block -/

theorem getComputerMove_center (b : Board) (corners sides : List Int)
    (hO : ∀ q ∈ ([1, 2, 3, 4, 5, 6, 7, 8, 9] : List Int), isWinningMove b 'O' q = false)
    (hX : ∀ q ∈ ([1, 2, 3, 4, 5, 6, 7, 8, 9] : List Int), isWinningMove b 'X' q = false)
    (h5 : isValidMove b 5 = true) : getComputerMove b corners sides = 5 := by
  unfold getComputerMove
  simp only [PLAYER2_MARK, PLAYER1_MARK, firstWin_none b 'O' hO, firstWin_none b 'X' hX, h5,
    if_true]

theorem getComputerMove_corner (b : Board) (corners sides : List Int)
    (hO : ∀ q ∈ ([1, 2, 3, 4, 5, 6, 7, 8, 9] : List Int), isWinningMove b 'O' q = false)
    (hX : ∀ q ∈ ([1, 2, 3, 4, 5, 6, 7, 8, 9] : List Int), isWinningMove b 'X' q = false)
    (h5 : isValidMove b 5 = false) (c : Int)
    (hc : corners.find? (fun corner => isValidMove b corner) = some c) :
    getComputerMove b corners sides = c := by
  unfold getComputerMove
  simp only [PLAYER2_MARK, PLAYER1_MARK, firstWin_none b 'O' hO, firstWin_none b 'X' hX, h5,
    hc, Bool.false_eq_true, if_false]

theorem getComputerMove_side (b : Board) (corners sides : List Int)
    (hO : ∀ q ∈ ([1, 2, 3, 4, 5, 6, 7, 8, 9] : List Int), isWinningMove b 'O' q = false)
    (hX : ∀ q ∈ ([1, 2, 3, 4, 5, 6, 7, 8, 9] : List Int), isWinningMove b 'X' q = false)
    (h5 : isValidMove b 5 = false)
    (hcn : corners.find? (fun corner => isValidMove b corner) = none) (c : Int)
    (hs : sides.find? (fun side => isValidMove b side) = some c) :
    getComputerMove b corners sides = c := by
  unfold getComputerMove
  simp only [PLAYER2_MARK, PLAYER1_MARK, firstWin_none b 'O' hO, firstWin_none b 'X' hX, h5,
    hcn, hs, Bool.false_eq_true, if_false]

theorem find?_valid_some (b : Board) (xs : List Int) (c : Int) (hc : c ∈ xs)
    (hv : isValidMove b c = true) :
    ∃ r, xs.find? (fun x => isValidMove b x) = some r ∧ r ∈ xs ∧ isValidMove b r = true := by
  cases hfind : xs.find? (fun x => isValidMove b x) with
  | none =>
    rw [List.find?_eq_none] at hfind
    exact absurd hv (hfind c hc)
  | some r => exact ⟨r, rfl, List.mem_of_find?_eq_some hfind, List.find?_some hfind⟩

theorem find?_valid_none (b : Board) (xs : List Int)
    (h : ∀ c ∈ xs, isValidMove b c = false) :
    xs.find? (fun x => isValidMove b x) = none := by
  rw [List.find?_eq_none]
  intro c hc
  rw [h c hc]
  exact Bool.false_ne_true

theorem init_no_win (singlePlayer : Bool) (cell0 : Char) (m : Char) (hm : m = 'X' ∨ m = 'O')
    (q : Int) : isWinningMove (TicTacToe.TicTacToe singlePlayer cell0).board m q = false := by
  rw [Bool.eq_false_iff]
  intro hw
  have hno : completeLine (TicTacToe.TicTacToe singlePlayer cell0).board m = false := by
    rw [Bool.eq_false_iff]
    intro hc
    simp only [completeLine, List.any_eq_true] at hc
    obtain ⟨l, hl, hh⟩ := hc
    have := no_line_in_progress _ (init_in_progress singlePlayer cell0) l hl
    rw [lineHolds_checkLine _ _ _ hh] at this
    exact Bool.noConfusion this
  obtain ⟨t, _, ht⟩ := wins_completesLine _ m q hno hw
  obtain ⟨_, l, hl, hcase⟩ := (completesLine_iff _ m t).1 ht
  obtain ⟨h1, h2, h3, _, _, _⟩ := lines_distinct l hl
  have hne : ∀ i : Fin 10, i ≠ 0 → (TicTacToe.TicTacToe singlePlayer cell0).board i ≠ m := by
    intro i hi he
    rw [init_cell singlePlayer cell0 i hi] at he
    rcases hm with hm | hm
    · exact (initialCell_not_mark i).1 (he.trans hm)
    · exact (initialCell_not_mark i).2 (he.trans hm)
  rcases hcase with ⟨_, ha, _⟩ | ⟨_, ha, _⟩ | ⟨_, ha, _⟩
  · exact hne _ h2 ha
  · exact hne _ h1 ha
  · exact hne _ h1 ha

/-- C11: on every board on which neither `'O'` nor `'X'` has an immediate
winning position and cell 5 is empty, `getComputerMove` returns 5 whatever the
two shuffled arrays hold; the freshly constructed board is such a board, so it
returns 5 there. -/
theorem getComputerMove_takes_center (b : Board) (corners sides : List Int)
    (hO : ∀ q ∈ ([1, 2, 3, 4, 5, 6, 7, 8, 9] : List Int), isWinningMove b 'O' q = false)
    (hX : ∀ q ∈ ([1, 2, 3, 4, 5, 6, 7, 8, 9] : List Int), isWinningMove b 'X' q = false)
    (h5 : isValidMove b 5 = true) :
    getComputerMove b corners sides = 5 ∧
    ∀ (singlePlayer : Bool) (cell0 : Char),
      (∀ q : Int, isWinningMove (TicTacToe.TicTacToe singlePlayer cell0).board 'O' q = false) ∧
      (∀ q : Int, isWinningMove (TicTacToe.TicTacToe singlePlayer cell0).board 'X' q = false) ∧
      isValidMove (TicTacToe.TicTacToe singlePlayer cell0).board 5 = true ∧
      getComputerMove (TicTacToe.TicTacToe singlePlayer cell0).board corners sides = 5 := by
  refine ⟨getComputerMove_center b corners sides hO hX h5, ?_⟩
  intro singlePlayer cell0
  have h1 := init_no_win singlePlayer cell0 'O' (Or.inr rfl)
  have h2 := init_no_win singlePlayer cell0 'X' (Or.inl rfl)
  have h3 := init_valid singlePlayer cell0 5 (by decide) (by decide)
  exact ⟨h1, h2, h3,
    getComputerMove_center _ corners sides (fun q _ => h1 q) (fun q _ => h2 q) h3⟩

/-- Witness of C11: `'X'` on 1 and `'O'` on 9; the computer takes the center. -/
theorem getComputerMove_takes_center_witness :
    (∀ q ∈ ([1, 2, 3, 4, 5, 6, 7, 8, 9] : List Int),
      isWinningMove (runMoves (TicTacToe.TicTacToe true 'a') [1, 9]).1.board 'O' q = false) ∧
    (∀ q ∈ ([1, 2, 3, 4, 5, 6, 7, 8, 9] : List Int),
      isWinningMove (runMoves (TicTacToe.TicTacToe true 'a') [1, 9]).1.board 'X' q = false) ∧
    isValidMove (runMoves (TicTacToe.TicTacToe true 'a') [1, 9]).1.board 5 = true ∧
    getComputerMove (runMoves (TicTacToe.TicTacToe true 'a') [1, 9]).1.board
      [3, 7, 1, 9] [8, 2, 6, 4] = 5 :=
  ⟨by decide, by decide, by decide,
    (getComputerMove_takes_center (runMoves (TicTacToe.TicTacToe true 'a') [1, 9]).1.board
      [3, 7, 1, 9] [8, 2, 6, 4] (by decide) (by decide) (by decide)).1⟩

/-- C16: on every board on which some position is an immediate win for `'O'`,
or some position is an immediate win for `'X'`, or the center is empty,
`getComputerMove` returns the same position for any two contents of the
shuffled arrays: only the corner rule and the side rule read them. -/
theorem getComputerMove_deterministic (b : Board) (corners sides corners2 sides2 : List Int)
    (h : (∃ p : Int, isWinningMove b 'O' p = true) ∨
      (∃ p : Int, isWinningMove b 'X' p = true) ∨ isValidMove b 5 = true) :
    getComputerMove b corners sides = getComputerMove b corners2 sides2 := by
  by_cases hO : ∃ p : Int, isWinningMove b 'O' p = true
  · obtain ⟨p, hp⟩ := hO
    obtain ⟨r, hfind, _, _⟩ := firstWin_some b 'O' p hp
    rw [getComputerMove_win b corners sides r hfind, getComputerMove_win b corners2 sides2 r hfind]
  · have hOn : ∀ q ∈ ([1, 2, 3, 4, 5, 6, 7, 8, 9] : List Int), isWinningMove b 'O' q = false := by
      intro q _
      rw [Bool.eq_false_iff]
      exact fun hq => hO ⟨q, hq⟩
    by_cases hX : ∃ p : Int, isWinningMove b 'X' p = true
    · obtain ⟨p, hp⟩ := hX
      obtain ⟨r, hfind, _, _⟩ := firstWin_some b 'X' p hp
      rw [getComputerMove_block b corners sides r (firstWin_none b 'O' hOn) hfind,
        getComputerMove_block b corners2 sides2 r (firstWin_none b 'O' hOn) hfind]
    · have hXn : ∀ q ∈ ([1, 2, 3, 4, 5, 6, 7, 8, 9] : List Int),
          isWinningMove b 'X' q = false := by
        intro q _
        rw [Bool.eq_false_iff]
        exact fun hq => hX ⟨q, hq⟩
      rcases h with h | h | h
      · exact absurd h hO
      · exact absurd h hX
      · rw [getComputerMove_center b corners sides hOn hXn h,
          getComputerMove_center b corners2 sides2 hOn hXn h]

/-- Witness of C16: on the board with `'X'` on 1 and 2 and `'O'` on 9 two
different pairs of orderings give the same position. -/
theorem getComputerMove_deterministic_witness :
    getComputerMove (runMoves (TicTacToe.TicTacToe true 'a') [1, 9, 2]).1.board
        [1, 3, 7, 9] [2, 4, 6, 8] =
      getComputerMove (runMoves (TicTacToe.TicTacToe true 'a') [1, 9, 2]).1.board
        [9, 7, 3, 1] [8, 6, 4, 2] :=
  getComputerMove_deterministic (runMoves (TicTacToe.TicTacToe true 'a') [1, 9, 2]).1.board
    [1, 3, 7, 9] [2, 4, 6, 8] [9, 7, 3, 1] [8, 6, 4, 2] (Or.inr (Or.inl ⟨3, by decide⟩))

/-! ## Corners and sides -/

theorem find?_ext (f g : Int → Bool) (xs : List Int) (h : ∀ x ∈ xs, f x = g x) :
    xs.find? f = xs.find? g := by
  induction xs with
  | nil => rfl
  | cons a rest ih =>
    rw [List.find?_cons, List.find?_cons, h a (List.mem_cons_self a rest),
      ih (fun x hx => h x (List.mem_cons_of_mem a hx))]

theorem ordering_first (b : Board) (xs : List Int) (c : Int) (hc : c ∈ xs)
    (hv : isValidMove b c = true) :
    (c :: xs.erase c).Perm xs ∧
      (c :: xs.erase c).find? (fun x => isValidMove b x) = some c :=
  ⟨(List.perm_cons_erase hc).symm, List.find?_cons_of_pos _ hv⟩

/-- C18: on every board on which neither mark has an immediate winning
position, the center and all four corners are occupied and some side is empty,
`getComputerMove` returns an empty side from `{2, 4, 6, 8}` for every ordering of
the corners and of the sides, and each empty side is returned for some ordering
of the sides. -/
theorem getComputerMove_takes_side (b : Board) (corners sides : List Int)
    (hc : corners.Perm [1, 3, 7, 9]) (hs : sides.Perm [2, 4, 6, 8])
    (hO : ∀ q ∈ ([1, 2, 3, 4, 5, 6, 7, 8, 9] : List Int), isWinningMove b 'O' q = false)
    (hX : ∀ q ∈ ([1, 2, 3, 4, 5, 6, 7, 8, 9] : List Int), isWinningMove b 'X' q = false)
    (h5 : isValidMove b 5 = false)
    (hcor : ∀ c ∈ ([1, 3, 7, 9] : List Int), isValidMove b c = false)
    (hside : ∃ s ∈ ([2, 4, 6, 8] : List Int), isValidMove b s = true) :
    getComputerMove b corners sides ∈ ([2, 4, 6, 8] : List Int) ∧
    isValidMove b (getComputerMove b corners sides) = true ∧
    ∀ s ∈ ([2, 4, 6, 8] : List Int), isValidMove b s = true →
      ∃ ordering : List Int, ordering.Perm [2, 4, 6, 8] ∧ ordering ∈ sideOrderings ∧
        getComputerMove b corners ordering = s := by
  have hcn : corners.find? (fun corner => isValidMove b corner) = none :=
    find?_valid_none b corners (fun c hm => hcor c (hc.mem_iff.1 hm))
  obtain ⟨s0, hs0, hv0⟩ := hside
  obtain ⟨r, hfind, hmem, hvr⟩ := find?_valid_some b sides s0 (hs.mem_iff.2 hs0) hv0
  rw [getComputerMove_side b corners sides hO hX h5 hcn r hfind]
  refine ⟨hs.mem_iff.1 hmem, hvr, ?_⟩
  intro s hsm hsv
  obtain ⟨hperm, hfirst⟩ := ordering_first b [2, 4, 6, 8] s hsm hsv
  exact ⟨s :: ([2, 4, 6, 8] : List Int).erase s, hperm, List.mem_permutations'.2 hperm,
    getComputerMove_side b corners _ hO hX h5 hcn s hfirst⟩

/-- Witness of C18: `'X'` on 1, 3, 5 and 8, `'O'` on 2, 7 and 9, the sides 4 and
6 empty; the computer takes 6, the first empty side of the ordering. -/
theorem getComputerMove_takes_side_witness :
    getComputerMove (runMoves (TicTacToe.TicTacToe true 'a') [1, 2, 3, 7, 5, 9, 8]).1.board
        [9, 1, 7, 3] [6, 2, 8, 4] ∈ ([2, 4, 6, 8] : List Int) ∧
    isValidMove (runMoves (TicTacToe.TicTacToe true 'a') [1, 2, 3, 7, 5, 9, 8]).1.board
      (getComputerMove (runMoves (TicTacToe.TicTacToe true 'a') [1, 2, 3, 7, 5, 9, 8]).1.board
        [9, 1, 7, 3] [6, 2, 8, 4]) = true :=
  ⟨(getComputerMove_takes_side (runMoves (TicTacToe.TicTacToe true 'a') [1, 2, 3, 7, 5, 9, 8]).1.board
      [9, 1, 7, 3] [6, 2, 8, 4] (by decide) (by decide) (by decide) (by decide) (by decide)
      (by decide) ⟨6, by decide, by decide⟩).1,
    by decide⟩

theorem isValidMove_cell (b : Board) (i : Fin 10) (hi : i ∈ cells) :
    isValidMove b (i.val : Int) = !isMark (b i) := by
  cases hm : isMark (b i)
  · exact (isValidMove_iff_cells b _).2 ⟨i, hi, rfl, hm⟩
  · rw [Bool.not_true, Bool.eq_false_iff]
    intro hv
    obtain ⟨k, _, hk, hmk⟩ := (isValidMove_iff_cells b _).1 hv
    have hki : k = i := Fin.ext (by omega)
    rw [hki, hm] at hmk
    exact Bool.noConfusion hmk

theorem emptyCorners_eq (b : Board) :
    emptyCorners b =
      (isValidMove b 1).toNat + (isValidMove b 3).toNat + (isValidMove b 7).toNat +
        (isValidMove b 9).toNat := by
  have h1 : isValidMove b 1 = !isMark (b 1) := isValidMove_cell b 1 (by decide)
  have h3 : isValidMove b 3 = !isMark (b 3) := isValidMove_cell b 3 (by decide)
  have h7 : isValidMove b 7 = !isMark (b 7) := isValidMove_cell b 7 (by decide)
  have h9 : isValidMove b 9 = !isMark (b 9) := isValidMove_cell b 9 (by decide)
  rw [h1, h3, h7, h9]
  simp only [emptyCorners, List.countP_cons, List.countP_nil]
  cases isMark (b 1) <;> cases isMark (b 3) <;> cases isMark (b 7) <;> cases isMark (b 9) <;> rfl

set_option maxRecDepth 100000 in
theorem pattern_count : ∀ v1 v3 v7 v9 : Bool, ∀ x ∈ ([1, 3, 7, 9] : List Int),
    cornerPattern v1 v3 v7 v9 x = true →
      (cornerOrderings.filter
        (fun cs => cs.find? (cornerPattern v1 v3 v7 v9) == some x)).length *
        (v1.toNat + v3.toNat + v7.toNat + v9.toNat) = 24 := by
  decide

theorem cornerPattern_valid (b : Board) (x : Int) (hx : x ∈ ([1, 3, 7, 9] : List Int)) :
    cornerPattern (isValidMove b 1) (isValidMove b 3) (isValidMove b 7) (isValidMove b 9) x =
      isValidMove b x := by
  simp only [List.mem_cons, List.mem_singleton, List.not_mem_nil, or_false] at hx
  rcases hx with h | h | h | h <;> subst h <;> simp [cornerPattern]

theorem find?_pattern (b : Board) (cs : List Int) (hcs : cs.Perm [1, 3, 7, 9]) :
    cs.find? (fun x => isValidMove b x) =
      cs.find?
        (cornerPattern (isValidMove b 1) (isValidMove b 3) (isValidMove b 7) (isValidMove b 9)) :=
  find?_ext _ _ cs (fun x hx => (cornerPattern_valid b x (hcs.mem_iff.1 hx)).symm)

theorem cornerOrderingCount_eq (b : Board) (sides : List Int)
    (hO : ∀ q ∈ ([1, 2, 3, 4, 5, 6, 7, 8, 9] : List Int), isWinningMove b 'O' q = false)
    (hX : ∀ q ∈ ([1, 2, 3, 4, 5, 6, 7, 8, 9] : List Int), isWinningMove b 'X' q = false)
    (h5 : isValidMove b 5 = false)
    (c0 : Int) (hc0 : c0 ∈ ([1, 3, 7, 9] : List Int)) (hv0 : isValidMove b c0 = true)
    (c : Int) :
    cornerOrderingCount b sides c =
      (cornerOrderings.filter (fun cs =>
        cs.find? (cornerPattern (isValidMove b 1) (isValidMove b 3) (isValidMove b 7)
          (isValidMove b 9)) == some c)).length := by
  unfold cornerOrderingCount
  congr 1
  apply List.filter_congr
  intro cs hcs
  have hperm : cs.Perm [1, 3, 7, 9] := List.mem_permutations'.1 hcs
  obtain ⟨r, hfind, _, _⟩ := find?_valid_some b cs c0 (hperm.mem_iff.2 hc0) hv0
  rw [getComputerMove_corner b cs sides hO hX h5 r hfind, ← find?_pattern b cs hperm, hfind]
  by_cases hrc : r = c <;> simp [hrc]

/-- C12: on every board on which neither mark has an immediate winning
position, the center is occupied and some corner is empty, `getComputerMove`
returns an empty corner from `{1, 3, 7, 9}` for every ordering of the corners;
the corner array has 24 orderings, each empty corner is returned by the same
number of them (24 divided by the number of empty corners), and each empty
corner is returned for some ordering. -/
theorem getComputerMove_takes_corner (b : Board) (corners sides : List Int)
    (hc : corners.Perm [1, 3, 7, 9])
    (hO : ∀ q ∈ ([1, 2, 3, 4, 5, 6, 7, 8, 9] : List Int), isWinningMove b 'O' q = false)
    (hX : ∀ q ∈ ([1, 2, 3, 4, 5, 6, 7, 8, 9] : List Int), isWinningMove b 'X' q = false)
    (h5 : isValidMove b 5 = false)
    (hcorner : ∃ c ∈ ([1, 3, 7, 9] : List Int), isValidMove b c = true) :
    getComputerMove b corners sides ∈ ([1, 3, 7, 9] : List Int) ∧
    isValidMove b (getComputerMove b corners sides) = true ∧
    cornerOrderings.length = 24 ∧ cornerOrderings.Nodup ∧
    (∀ ordering : List Int, ordering ∈ cornerOrderings ↔ ordering.Perm [1, 3, 7, 9]) ∧
    (∀ c ∈ ([1, 3, 7, 9] : List Int), isValidMove b c = true →
      cornerOrderingCount b sides c * emptyCorners b = 24) ∧
    (∀ c1 ∈ ([1, 3, 7, 9] : List Int), ∀ c2 ∈ ([1, 3, 7, 9] : List Int),
      isValidMove b c1 = true → isValidMove b c2 = true →
        cornerOrderingCount b sides c1 = cornerOrderingCount b sides c2) ∧
    (∀ c ∈ ([1, 3, 7, 9] : List Int), isValidMove b c = true →
      ∃ ordering : List Int, ordering.Perm [1, 3, 7, 9] ∧
        getComputerMove b ordering sides = c) := by
  obtain ⟨c0, hc0, hv0⟩ := hcorner
  obtain ⟨r, hfind, hmem, hvr⟩ := find?_valid_some b corners c0 (hc.mem_iff.2 hc0) hv0
  have hcount : ∀ c ∈ ([1, 3, 7, 9] : List Int), isValidMove b c = true →
      cornerOrderingCount b sides c * emptyCorners b = 24 := by
    intro c hcm hcv
    rw [cornerOrderingCount_eq b sides hO hX h5 c0 hc0 hv0 c, emptyCorners_eq]
    exact pattern_count _ _ _ _ c hcm (by rw [cornerPattern_valid b c hcm]; exact hcv)
  rw [getComputerMove_corner b corners sides hO hX h5 r hfind]
  refine ⟨hc.mem_iff.1 hmem, hvr, by decide, by decide, fun _ => List.mem_permutations',
    hcount, ?_, ?_⟩
  · intro c1 h1 c2 h2 hv1 hv2
    have e1 := hcount c1 h1 hv1
    have e2 := hcount c2 h2 hv2
    have hpos : 0 < emptyCorners b := by
      rcases Nat.eq_zero_or_pos (emptyCorners b) with hz | hz
      · rw [hz] at e1
        omega
      · exact hz
    exact Nat.eq_of_mul_eq_mul_right hpos (e1.trans e2.symm)
  · intro c hcm hcv
    obtain ⟨hperm, hfirst⟩ := ordering_first b [1, 3, 7, 9] c hcm hcv
    exact ⟨c :: ([1, 3, 7, 9] : List Int).erase c, hperm,
      getComputerMove_corner b _ sides hO hX h5 c hfirst⟩

/-- Witness of C12: `'X'` on the center and the four corners empty; with the
ordering 7, 1, 9, 3 the computer takes 7, and 6 of the 24 orderings give 1. -/
theorem getComputerMove_takes_corner_witness :
    getComputerMove (runMoves (TicTacToe.TicTacToe true 'a') [5]).1.board
        [7, 1, 9, 3] [2, 4, 6, 8] = 7 ∧
    emptyCorners (runMoves (TicTacToe.TicTacToe true 'a') [5]).1.board = 4 ∧
    cornerOrderingCount (runMoves (TicTacToe.TicTacToe true 'a') [5]).1.board [2, 4, 6, 8] 1 *
      emptyCorners (runMoves (TicTacToe.TicTacToe true 'a') [5]).1.board = 24 :=
  ⟨by decide, by decide,
    (getComputerMove_takes_corner (runMoves (TicTacToe.TicTacToe true 'a') [5]).1.board
      [7, 1, 9, 3] [2, 4, 6, 8] (by decide) (by decide) (by decide) (by decide)
      ⟨1, by decide, by decide⟩).2.2.2.2.2.1 1 (by decide) (by decide)⟩

/-! ## The marks on the board after a sequence of calls -/

theorem markAt_zero (turn : Bool) : markAt turn 0 = (if turn then 'X' else 'O') := by
  cases turn <;> rfl

theorem markAt_succ (turn : Bool) (j : Nat) : markAt (!turn) j = markAt turn (j + 1) := by
  rcases Nat.mod_two_eq_zero_or_one j with h | h
  · have h1 : (j + 1) % 2 = 1 := by omega
    cases turn <;> simp [markAt, h, h1]
  · have h1 : (j + 1) % 2 = 0 := by omega
    cases turn <;> simp [markAt, h, h1]

theorem turn_mark (turn : Bool) :
    (if turn then 'X' else 'O' : Char) = 'X' ∨ (if turn then 'X' else 'O' : Char) = 'O' := by
  cases turn
  · exact Or.inr rfl
  · exact Or.inl rfl

theorem valid_before_set (b : Board) (i : Fin 10) (c : Char) (hc : c = 'X' ∨ c = 'O')
    (p : Int) (h : isValidMove (b.set i c) p = true) :
    isValidMove b p = true ∧ p ≠ (i.val : Int) := by
  obtain ⟨k, hk, h0, hx, ho⟩ := (isValidMove_iff _ p).1 h
  have hki : k ≠ i := by
    intro e
    rw [e, set_same] at hx ho
    rcases hc with hc | hc
    · exact hx hc
    · exact ho hc
  rw [set_other _ _ _ _ hki] at hx ho
  refine ⟨(isValidMove_iff b p).2 ⟨k, hk, h0, hx, ho⟩, ?_⟩
  intro e
  exact hki (Fin.ext (by omega))

theorem successfulMoves_rejected (g : TicTacToe) (p : Int) (rest : List Int)
    (hm : makeMove g p = (false, g)) :
    successfulMoves g (p :: rest) = successfulMoves g rest ∧
    runMoves g (p :: rest) = ((runMoves g rest).1, false :: (runMoves g rest).2) := by
  simp [successfulMoves, runMoves, hm]

theorem successfulMoves_accepted (g g1 : TicTacToe) (p : Int) (rest : List Int)
    (hm : makeMove g p = (true, g1)) :
    successfulMoves g (p :: rest) = p :: successfulMoves g1 rest ∧
    runMoves g (p :: rest) = ((runMoves g1 rest).1, true :: (runMoves g1 rest).2) := by
  simp [successfulMoves, runMoves, hm]

theorem makeMove_step (g : TicTacToe) (p : Int) :
    makeMove g p = (false, g) ∨
    ∃ (i : Fin 10) (g1 : TicTacToe), makeMove g p = (true, g1) ∧ (i.val : Int) = p ∧
      i ∈ cells ∧ isMark (g.board i) = false ∧ isValidMove g.board p = true ∧
      g1.board = g.board.set i (if g.isPlayer1Turn then 'X' else 'O') ∧
      g1.isPlayer1Turn = (!g.isPlayer1Turn) ∧ g1.isSinglePlayer = g.isSinglePlayer := by
  rcases makeMove_result g p with ⟨_, hm⟩ | ⟨hv, i, hi, h0, hx, ho, hm⟩
  · exact Or.inl hm
  · exact Or.inr ⟨i, _, hm, hi, (mem_cells i).2 h0, (isMark_false_iff _).2 ⟨hx, ho⟩, hv,
      rfl, rfl, rfl⟩

theorem successful_valid (moves : List Int) :
    ∀ (g : TicTacToe) (q : Int), q ∈ successfulMoves g moves → isValidMove g.board q = true := by
  induction moves with
  | nil =>
    intro g q hq
    simp [successfulMoves] at hq
  | cons p rest ih =>
    intro g q hq
    rcases makeMove_step g p with hm | ⟨i, g1, hm, _, _, _, hv, hb, _, _⟩
    · rw [(successfulMoves_rejected g p rest hm).1] at hq
      exact ih g q hq
    · rw [(successfulMoves_accepted g g1 p rest hm).1, List.mem_cons] at hq
      rcases hq with hq | hq
      · rw [hq]
        exact hv
      · have := ih g1 q hq
        rw [hb] at this
        exact (valid_before_set g.board i _ (turn_mark _) q this).1

theorem successful_fresh (g g1 : TicTacToe) (p : Int) (i : Fin 10) (rest : List Int)
    (hi : (i.val : Int) = p)
    (hb : g1.board = g.board.set i (if g.isPlayer1Turn then 'X' else 'O')) :
    p ∉ successfulMoves g1 rest := by
  intro hmem
  have := successful_valid rest g1 p hmem
  rw [hb] at this
  exact (valid_before_set g.board i _ (turn_mark _) p this).2 hi.symm

theorem successful_nodup (moves : List Int) :
    ∀ g : TicTacToe, (successfulMoves g moves).Nodup := by
  induction moves with
  | nil =>
    intro g
    simp [successfulMoves]
  | cons p rest ih =>
    intro g
    rcases makeMove_step g p with hm | ⟨i, g1, hm, hi, _, _, _, hb, _, _⟩
    · rw [(successfulMoves_rejected g p rest hm).1]
      exact ih g
    · rw [(successfulMoves_accepted g g1 p rest hm).1, List.nodup_cons]
      exact ⟨successful_fresh g g1 p i rest hi hb, ih g1⟩

theorem unchanged_cells (moves : List Int) :
    ∀ (g : TicTacToe) (k : Fin 10), (k.val : Int) ∉ successfulMoves g moves →
      (runMoves g moves).1.board k = g.board k := by
  induction moves with
  | nil =>
    intro g k _
    rfl
  | cons p rest ih =>
    intro g k hk
    rcases makeMove_step g p with hm | ⟨i, g1, hm, hi, _, _, _, hb, _, _⟩
    · rw [(successfulMoves_rejected g p rest hm).1] at hk
      rw [(successfulMoves_rejected g p rest hm).2]
      exact ih g k hk
    · rw [(successfulMoves_accepted g g1 p rest hm).1, List.mem_cons, not_or] at hk
      rw [(successfulMoves_accepted g g1 p rest hm).2]
      have hki : k ≠ i := by
        intro e
        rw [e] at hk
        exact hk.1 hi
      show (runMoves g1 rest).1.board k = g.board k
      rw [ih g1 k hk.2, hb]
      exact set_other _ _ _ _ hki

theorem mark_of_successful (moves : List Int) :
    ∀ (g : TicTacToe) (j : Nat) (k : Fin 10),
      (successfulMoves g moves)[j]? = some (k.val : Int) →
        (runMoves g moves).1.board k = markAt g.isPlayer1Turn j := by
  induction moves with
  | nil =>
    intro g j k hj
    simp [successfulMoves] at hj
  | cons p rest ih =>
    intro g j k hj
    rcases makeMove_step g p with hm | ⟨i, g1, hm, hi, _, _, _, hb, ht, _⟩
    · rw [(successfulMoves_rejected g p rest hm).1] at hj
      rw [(successfulMoves_rejected g p rest hm).2]
      exact ih g j k hj
    · rw [(successfulMoves_accepted g g1 p rest hm).1] at hj
      rw [(successfulMoves_accepted g g1 p rest hm).2]
      show (runMoves g1 rest).1.board k = markAt g.isPlayer1Turn j
      cases j with
      | zero =>
        simp only [List.getElem?_cons_zero, Option.some.injEq] at hj
        have hki : k = i := Fin.ext (by omega)
        have hnot : (k.val : Int) ∉ successfulMoves g1 rest := by
          rw [← hj]
          exact successful_fresh g g1 p i rest hi hb
        rw [unchanged_cells rest g1 k hnot, hb, hki, set_same, markAt_zero]
      | succ j1 =>
        simp only [List.getElem?_cons_succ] at hj
        rw [ih g1 j1 k hj, ht, markAt_succ]

theorem cells_nodup : cells.Nodup := by
  decide

theorem countP_set_same (b : Board) (i0 : Fin 10) (m : Char) (hne : b i0 ≠ m)
    (l : List (Fin 10)) (hnd : l.Nodup) :
    l.countP (fun i => b.set i0 m i == m) =
      l.countP (fun i => b i == m) + (if i0 ∈ l then 1 else 0) := by
  induction l with
  | nil => rfl
  | cons a rest ih =>
    rw [List.nodup_cons] at hnd
    rw [List.countP_cons, List.countP_cons, ih hnd.2]
    by_cases ha : a = i0
    · subst ha
      have h1 : (b.set a m a == m) = true := by rw [set_same]; exact beq_self_eq_true m
      have h2 : (b a == m) = false := by rw [beq_eq_false_iff_ne]; exact hne
      simp [h1, h2, hnd.1]
    · have h1 : (b.set i0 m a == m) = (b a == m) := by rw [set_other _ _ _ _ ha]
      have h2 : (i0 ∈ a :: rest) ↔ i0 ∈ rest := by
        rw [List.mem_cons]
        exact ⟨fun h => h.resolve_left (fun e => ha e.symm), Or.inr⟩
      simp only [h1, h2]
      omega

theorem countMark_set_same (b : Board) (i0 : Fin 10) (hi : i0 ∈ cells) (m : Char)
    (hne : b i0 ≠ m) : countMark (b.set i0 m) m = countMark b m + 1 := by
  unfold countMark
  rw [countP_set_same b i0 m hne cells cells_nodup, if_pos hi]

theorem countMark_set_other (b : Board) (i0 : Fin 10) (m c : Char) (hc : c ≠ m)
    (hne : b i0 ≠ c) : countMark (b.set i0 m) c = countMark b c := by
  unfold countMark
  congr 1
  funext i
  by_cases hi : i = i0
  · subst hi
    rw [set_same]
    have h1 : (m == c) = false := by rw [beq_eq_false_iff_ne]; exact fun e => hc e.symm
    have h2 : (b i == c) = false := by rw [beq_eq_false_iff_ne]; exact hne
    rw [h1, h2]
  · rw [set_other _ _ _ _ hi]

theorem counts_after_runMoves (moves : List Int) :
    ∀ g : TicTacToe,
      countMark (runMoves g moves).1.board 'X' =
        countMark g.board 'X' +
          (if g.isPlayer1Turn then ((successfulMoves g moves).length + 1) / 2
            else (successfulMoves g moves).length / 2) ∧
      countMark (runMoves g moves).1.board 'O' =
        countMark g.board 'O' +
          (if g.isPlayer1Turn then (successfulMoves g moves).length / 2
            else ((successfulMoves g moves).length + 1) / 2) := by
  induction moves with
  | nil =>
    intro g
    cases g.isPlayer1Turn <;> simp [runMoves, successfulMoves]
  | cons p rest ih =>
    intro g
    rcases makeMove_step g p with hm | ⟨i, g1, hm, _, hic, hmk, _, hb, ht, _⟩
    · rw [(successfulMoves_rejected g p rest hm).1, (successfulMoves_rejected g p rest hm).2]
      exact ih g
    · rw [(successfulMoves_accepted g g1 p rest hm).1, (successfulMoves_accepted g g1 p rest hm).2]
      obtain ⟨hx, ho⟩ := (isMark_false_iff _).1 hmk
      obtain ⟨ihx, iho⟩ := ih g1
      show countMark (runMoves g1 rest).1.board 'X' = _ ∧
        countMark (runMoves g1 rest).1.board 'O' = _
      rw [ihx, iho, ht, hb, List.length_cons]
      rcases Bool.eq_false_or_eq_true g.isPlayer1Turn with h | h
      · rw [h]
        simp only [if_true, Bool.not_true, Bool.false_eq_true, if_false]
        rw [countMark_set_same g.board i hic 'X' hx,
          countMark_set_other g.board i 'X' 'O' (by decide) ho]
        constructor <;> omega
      · rw [h]
        simp only [Bool.not_false, if_true, Bool.false_eq_true, if_false]
        rw [countMark_set_same g.board i hic 'O' ho,
          countMark_set_other g.board i 'O' 'X' (by decide) hx]
        constructor <;> omega

theorem successful_length (moves : List Int) :
    ∀ g : TicTacToe, (successfulMoves g moves).length = (runMoves g moves).2.count true := by
  induction moves with
  | nil =>
    intro g
    rfl
  | cons p rest ih =>
    intro g
    rcases makeMove_step g p with hm | ⟨i, g1, hm, _, _, _, _, _, _, _⟩
    · rw [(successfulMoves_rejected g p rest hm).1, (successfulMoves_rejected g p rest hm).2]
      simpa using ih g
    · rw [(successfulMoves_accepted g g1 p rest hm).1, (successfulMoves_accepted g g1 p rest hm).2]
      simpa using ih g1

theorem countMark_init (singlePlayer : Bool) (cell0 : Char) (m : Char)
    (hm : m = 'X' ∨ m = 'O') : countMark (TicTacToe.TicTacToe singlePlayer cell0).board m = 0 := by
  unfold countMark
  rw [List.countP_eq_zero]
  intro i hi
  have h := (isMark_false_iff _).1 (init_not_mark singlePlayer cell0 i hi)
  rw [beq_iff_eq]
  rcases hm with hm | hm
  · rw [hm]
    exact h.1
  · rw [hm]
    exact h.2

theorem markAt_first (j : Nat) (hj : 1 ≤ j) :
    markAt true (j - 1) = (if j % 2 = 1 then 'X' else 'O') := by
  rcases Nat.mod_two_eq_zero_or_one j with h | h
  · have h1 : (j - 1) % 2 = 1 := by omega
    simp [markAt, h, h1]
  · have h1 : (j - 1) % 2 = 0 := by omega
    simp [markAt, h, h1]

theorem markAt_isMark (turn : Bool) (j : Nat) : isMark (markAt turn j) = true := by
  rcases Nat.mod_two_eq_zero_or_one j with h | h <;> cases turn <;> simp [markAt, h, isMark]

/-- C15: after any sequence of `makeMove` calls on a freshly constructed game,
the cells that hold a mark are exactly the positions of the calls that returned
true; the position of the `j`-th successful call holds `'X'` when `j` is odd and
`'O'` when `j` is even; every other cell holds its initial digit (and cell 0
what it held); so after `k` successful calls the board has `(k + 1) / 2` marks
`'X'` and `k / 2` marks `'O'`. -/
theorem marks_after_moves (singlePlayer : Bool) (cell0 : Char) (moves : List Int) :
    (successfulMoves (TicTacToe.TicTacToe singlePlayer cell0) moves).length =
      (runMoves (TicTacToe.TicTacToe singlePlayer cell0) moves).2.count true ∧
    (successfulMoves (TicTacToe.TicTacToe singlePlayer cell0) moves).Nodup ∧
    (∀ i ∈ cells,
      (isMark ((runMoves (TicTacToe.TicTacToe singlePlayer cell0) moves).1.board i) = true ↔
        (i.val : Int) ∈ successfulMoves (TicTacToe.TicTacToe singlePlayer cell0) moves)) ∧
    (∀ (j : Nat) (i : Fin 10), 1 ≤ j →
      (successfulMoves (TicTacToe.TicTacToe singlePlayer cell0) moves)[j - 1]? =
          some (i.val : Int) →
        (runMoves (TicTacToe.TicTacToe singlePlayer cell0) moves).1.board i =
          (if j % 2 = 1 then 'X' else 'O')) ∧
    (∀ i ∈ cells, (i.val : Int) ∉ successfulMoves (TicTacToe.TicTacToe singlePlayer cell0) moves →
      (runMoves (TicTacToe.TicTacToe singlePlayer cell0) moves).1.board i = initialCell i) ∧
    (runMoves (TicTacToe.TicTacToe singlePlayer cell0) moves).1.board 0 = cell0 ∧
    countMark (runMoves (TicTacToe.TicTacToe singlePlayer cell0) moves).1.board 'X' =
      ((successfulMoves (TicTacToe.TicTacToe singlePlayer cell0) moves).length + 1) / 2 ∧
    countMark (runMoves (TicTacToe.TicTacToe singlePlayer cell0) moves).1.board 'O' =
      (successfulMoves (TicTacToe.TicTacToe singlePlayer cell0) moves).length / 2 := by
  have hinit : ∀ i ∈ cells,
      (i.val : Int) ∉ successfulMoves (TicTacToe.TicTacToe singlePlayer cell0) moves →
      (runMoves (TicTacToe.TicTacToe singlePlayer cell0) moves).1.board i = initialCell i := by
    intro i hi hn
    rw [unchanged_cells moves _ i hn]
    exact init_cell singlePlayer cell0 i ((mem_cells i).1 hi)
  have hmark : ∀ (j : Nat) (i : Fin 10),
      (successfulMoves (TicTacToe.TicTacToe singlePlayer cell0) moves)[j]? = some (i.val : Int) →
      (runMoves (TicTacToe.TicTacToe singlePlayer cell0) moves).1.board i = markAt true j :=
    fun j i h => mark_of_successful moves _ j i h
  obtain ⟨hx, ho⟩ := counts_after_runMoves moves (TicTacToe.TicTacToe singlePlayer cell0)
  refine ⟨successful_length moves _, successful_nodup moves _, ?_, ?_, hinit, ?_, ?_, ?_⟩
  · intro i hi
    constructor
    · intro hm
      by_contra hn
      rw [hinit i hi hn, (isMark_false_iff _).2 (initialCell_not_mark i)] at hm
      exact Bool.noConfusion hm
    · intro hmem
      obtain ⟨j, hj⟩ := List.getElem?_of_mem hmem
      rw [hmark j i hj]
      exact markAt_isMark true j
  · intro j i hj hget
    rw [hmark (j - 1) i hget, markAt_first j hj]
  · have hn : ((0 : Fin 10).val : Int) ∉
        successfulMoves (TicTacToe.TicTacToe singlePlayer cell0) moves := by
      intro hmem
      have := isValidMove_range _ _ (successful_valid moves _ _ hmem)
      simp at this
    rw [unchanged_cells moves _ 0 hn]
    rfl
  · rw [hx, countMark_init singlePlayer cell0 'X' (Or.inl rfl)]
    simp [TicTacToe.TicTacToe]
  · rw [ho, countMark_init singlePlayer cell0 'O' (Or.inr rfl)]
    simp [TicTacToe.TicTacToe]

/-- Witness of C15: the calls 5, 5, 0, 1, 9 (the second and third rejected): the
third successful call, on 9, leaves `'X'` there. -/
theorem marks_after_moves_witness :
    successfulMoves (TicTacToe.TicTacToe false 'a') [5, 5, 0, 1, 9] = [5, 1, 9] ∧
    (runMoves (TicTacToe.TicTacToe false 'a') [5, 5, 0, 1, 9]).1.board 9 =
      (if 3 % 2 = 1 then 'X' else 'O') ∧
    countMark (runMoves (TicTacToe.TicTacToe false 'a') [5, 5, 0, 1, 9]).1.board 'X' = 2 :=
  ⟨by decide,
    (marks_after_moves false 'a' [5, 5, 0, 1, 9]).2.2.2.1 3 9 (by decide) (by decide),
    by decide⟩

/-! ## The computer's move applied -/

theorem checkGameState_values (b : Board) :
    checkGameState b = 1 ∨ checkGameState b = 0 ∨ checkGameState b = -1 := by
  unfold checkGameState
  split_ifs <;> simp

theorem full_not_in_progress (b : Board) (h : markCount b = 9) :
    checkGameState b = 1 ∨ checkGameState b = 0 := by
  rcases checkGameState_values b with h1 | h0 | hn
  · exact Or.inl h1
  · exact Or.inr h0
  · have hf := ((checkGameState_eq_neg_one b).1 hn).2
    rw [(isBoardFull_iff b).2 h] at hf
    exact Bool.noConfusion hf

theorem markCount_full (b : Board) (h : ∀ i ∈ cells, isMark (b i) = true) : markCount b = 9 := by
  have hlen : cells.length = 9 := rfl
  unfold markCount
  rw [← hlen, List.countP_eq_length]
  exact h

theorem computerMove_on_full (g : TicTacToe) (corners sides : List Int)
    (hfull : ∀ i ∈ cells, isMark (g.board i) = true) :
    getComputerMove g.board corners sides = -1 ∧ makeComputerMove g corners sides = g ∧
      makeComputerMoveOutput g corners sides = [] := by
  have hinv : ∀ q : Int, isValidMove g.board q = false := by
    intro q
    rw [Bool.eq_false_iff]
    intro hv
    obtain ⟨i, hi, _, hm⟩ := (isValidMove_iff_cells g.board q).1 hv
    rw [hfull i hi] at hm
    exact Bool.noConfusion hm
  have hr := getComputerMove_full g.board corners sides hinv
  refine ⟨hr, ?_, ?_⟩
  · unfold makeComputerMove
    simp [hr]
  · unfold makeComputerMoveOutput
    simp [hr]

/-- C13, as the code has it: when no cell is empty `getComputerMove` returns -1
and `makeComputerMove` skips its body: the call returns with the object
unchanged (board, turn and mode) and writes no message; such a board is never
in progress, so the loop of `main`, which moves only while `checkGameState` is
-1, does not make this call. -/
theorem makeComputerMove_full_board (g : TicTacToe) (corners sides : List Int)
    (hfull : ∀ i ∈ cells, isMark (g.board i) = true) :
    getComputerMove g.board corners sides = -1 ∧
    makeComputerMove g corners sides = g ∧
    makeComputerMoveOutput g corners sides = [] ∧
    checkGameState g.board ≠ -1 := by
  obtain ⟨h1, h2, h3⟩ := computerMove_on_full g corners sides hfull
  refine ⟨h1, h2, h3, ?_⟩
  rcases full_not_in_progress g.board (markCount_full g.board hfull) with h | h <;>
    rw [h] <;> decide

/-- Witness of C13: the board filled by 1, 2, 3, 5, 4, 6, 8, 7, 9 in a
single-player game. -/
theorem makeComputerMove_full_board_witness :
    (∀ i ∈ cells, isMark ((runMoves (TicTacToe.TicTacToe true 'a')
      [1, 2, 3, 5, 4, 6, 8, 7, 9]).1.board i) = true) ∧
    getComputerMove (runMoves (TicTacToe.TicTacToe true 'a')
      [1, 2, 3, 5, 4, 6, 8, 7, 9]).1.board [1, 3, 7, 9] [2, 4, 6, 8] = -1 :=
  ⟨by decide,
    (makeComputerMove_full_board (runMoves (TicTacToe.TicTacToe true 'a')
      [1, 2, 3, 5, 4, 6, 8, 7, 9]).1 [1, 3, 7, 9] [2, 4, 6, 8] (by decide)).1⟩

/-- Counterexample to C13 as stated: on the full board reached by 1, 2, 3, 5, 4,
6, 8, 7, 9 in a single-player game, with the computer as turn-holder,
`makeComputerMove` returns normally with the object unchanged and writes
nothing: a silent no-op, no fault. -/
theorem makeComputerMove_silent_no_op :
    markCount (runMoves (TicTacToe.TicTacToe true 'a')
      [1, 2, 3, 5, 4, 6, 8, 7, 9]).1.board = 9 ∧
    isComputerTurn (runMoves (TicTacToe.TicTacToe true 'a')
      [1, 2, 3, 5, 4, 6, 8, 7, 9]).1 = true ∧
    makeComputerMove (runMoves (TicTacToe.TicTacToe true 'a')
        [1, 2, 3, 5, 4, 6, 8, 7, 9]).1 [1, 3, 7, 9] [2, 4, 6, 8] =
      (runMoves (TicTacToe.TicTacToe true 'a') [1, 2, 3, 5, 4, 6, 8, 7, 9]).1 ∧
    makeComputerMoveOutput (runMoves (TicTacToe.TicTacToe true 'a')
      [1, 2, 3, 5, 4, 6, 8, 7, 9]).1 [1, 3, 7, 9] [2, 4, 6, 8] = [] :=
  ⟨by decide, by decide,
    (computerMove_on_full _ [1, 3, 7, 9] [2, 4, 6, 8] (by decide)).2.1,
    by decide⟩

theorem computerMove_result (g : TicTacToe) (corners sides : List Int)
    (hc : corners.Perm [1, 3, 7, 9]) (hs : sides.Perm [2, 4, 6, 8])
    (hturn : isComputerTurn g = true) (hempty : ∃ i ∈ cells, isMark (g.board i) = false) :
    ∃ i ∈ cells, (i.val : Int) = getComputerMove g.board corners sides ∧
      isMark (g.board i) = false ∧
      isValidMove g.board (getComputerMove g.board corners sides) = true ∧
      makeMove g (getComputerMove g.board corners sides) =
        (true, makeComputerMove g corners sides) ∧
      (makeComputerMove g corners sides).board = g.board.set i 'O' ∧
      (makeComputerMove g corners sides).isPlayer1Turn = true ∧
      (makeComputerMove g corners sides).isSinglePlayer = true := by
  simp only [isComputerTurn, Bool.and_eq_true, Bool.not_eq_true'] at hturn
  have hv := ((getComputerMove_accepted g.board corners sides hc hs) hempty)
  rw [makeComputerMove_eq]
  rcases makeMove_step g (getComputerMove g.board corners sides) with
    hm | ⟨i, g1, hm, hi, hic, hmk, _, hb, ht, hsp⟩
  · have := makeMove_valid g _ (cellIndex _ (isValidMove_range _ _ hv))
      (cellIndex_val _ _) hv
    rw [hm] at this
    simp at this
  · rw [hm]
    refine ⟨i, hic, hi, hmk, hv, rfl, ?_, ?_, ?_⟩
    · rw [hb, hturn.2]
      rfl
    · rw [ht, hturn.2]
      rfl
    · rw [hsp, hturn.1]

/-- C20: in a single-player state with the computer as turn-holder and some
cell empty, for every ordering of the corners and of the sides,
`makeComputerMove` calls `makeMove` on a position it accepts, so the rejecting
branch and its messages are not reached; the call writes `'O'` into the empty
cell `getComputerMove` chose, one more `'O'` and no other change on the board,
and hands the turn to player 1; if some position was an immediate win for `'O'`,
`checkGameState` returns 1 afterwards. -/
theorem makeComputerMove_places_mark (g : TicTacToe) (corners sides : List Int)
    (hc : corners.Perm [1, 3, 7, 9]) (hs : sides.Perm [2, 4, 6, 8])
    (hturn : isComputerTurn g = true) (hempty : ∃ i ∈ cells, isMark (g.board i) = false) :
    isValidMove g.board (getComputerMove g.board corners sides) = true ∧
    makeMove g (getComputerMove g.board corners sides) =
      (true, makeComputerMove g corners sides) ∧
    makeMoveOutput g (getComputerMove g.board corners sides) = [] ∧
    makeComputerMoveOutput g corners sides =
      [Output.computerChooses (getComputerMove g.board corners sides),
        Output.pressEnterToContinue] ∧
    (∃ i ∈ cells, (i.val : Int) = getComputerMove g.board corners sides ∧
      isMark (g.board i) = false ∧
      (makeComputerMove g corners sides).board i = 'O' ∧
      ∀ k : Fin 10, k ≠ i → (makeComputerMove g corners sides).board k = g.board k) ∧
    countMark (makeComputerMove g corners sides).board 'O' = countMark g.board 'O' + 1 ∧
    countMark (makeComputerMove g corners sides).board 'X' = countMark g.board 'X' ∧
    (makeComputerMove g corners sides).isPlayer1Turn = true ∧
    getCurrentPlayer (makeComputerMove g corners sides) = 1 ∧
    isComputerTurn (makeComputerMove g corners sides) = false ∧
    (makeComputerMove g corners sides).isSinglePlayer = true ∧
    ((∃ p : Int, isWinningMove g.board 'O' p = true) →
      checkGameState (makeComputerMove g corners sides).board = 1) := by
  obtain ⟨i, hic, hi, hmk, hv, hm, hb, ht, hsp⟩ :=
    computerMove_result g corners sides hc hs hturn hempty
  obtain ⟨hx, ho⟩ := (isMark_false_iff _).1 hmk
  have hneg : getComputerMove g.board corners sides ≠ -1 := by
    have := isValidMove_range _ _ hv
    omega
  refine ⟨hv, hm, ?_, ?_, ⟨i, hic, hi, hmk, ?_, ?_⟩, ?_, ?_, ht, ?_, ?_, hsp, ?_⟩
  · simp [makeMoveOutput, hv]
  · simp [makeComputerMoveOutput, makeMoveOutput, hv, hneg]
  · rw [hb, set_same]
  · intro k hk
    rw [hb, set_other _ _ _ _ hk]
  · rw [hb, countMark_set_same g.board i hic 'O' ho]
  · rw [hb, countMark_set_other g.board i 'O' 'X' (by decide) hx]
  · simp [getCurrentPlayer, ht]
  · simp [isComputerTurn, ht]
  · rintro ⟨p, hp⟩
    obtain ⟨r, hfind, hwin, _⟩ := firstWin_some g.board 'O' p hp
    have hr := getComputerMove_win g.board corners sides r hfind
    obtain ⟨k, _, hk, _, hline⟩ := winning_cell g.board 'O' r hwin
    have hki : k = i := Fin.ext (by omega)
    rw [hki, ← hb] at hline
    simp only [completeLine, List.any_eq_true] at hline
    obtain ⟨l, hl, hh⟩ := hline
    exact (checkGameState_eq_one _).2 ⟨l, hl, lineHolds_checkLine _ _ _ hh⟩

/-- Witness of C20: single-player game after 1, 7, 2, 9, 4, computer to move;
it has an immediate win on 8 and the state after its move is a win. -/
theorem makeComputerMove_places_mark_witness :
    isComputerTurn (runMoves (TicTacToe.TicTacToe true 'a') [1, 7, 2, 9, 4]).1 = true ∧
    makeComputerMoveOutput (runMoves (TicTacToe.TicTacToe true 'a') [1, 7, 2, 9, 4]).1
        [9, 7, 3, 1] [8, 6, 4, 2] =
      [Output.computerChooses 8, Output.pressEnterToContinue] ∧
    checkGameState (makeComputerMove (runMoves (TicTacToe.TicTacToe true 'a') [1, 7, 2, 9, 4]).1
      [9, 7, 3, 1] [8, 6, 4, 2]).board = 1 :=
  ⟨by decide, by decide,
    (makeComputerMove_places_mark (runMoves (TicTacToe.TicTacToe true 'a') [1, 7, 2, 9, 4]).1
      [9, 7, 3, 1] [8, 6, 4, 2] (by decide) (by decide) (by decide)
      ⟨3, by decide, by decide⟩).2.2.2.2.2.2.2.2.2.2.2 ⟨8, by decide⟩⟩

/-! ## Nine moves at most -/

theorem countP_marks (b : Board) (l : List (Fin 10)) :
    l.countP (fun i => isMark (b i)) =
      l.countP (fun i => b i == 'X') + l.countP (fun i => b i == 'O') := by
  induction l with
  | nil => rfl
  | cons a rest ih =>
    rw [List.countP_cons, List.countP_cons, List.countP_cons, ih]
    by_cases hx : b a = 'X'
    · simp [isMark, hx]
      omega
    · by_cases ho : b a = 'O'
      · simp [isMark, ho]
        omega
      · simp [isMark, hx, ho]

theorem markCount_eq (b : Board) : markCount b = countMark b 'X' + countMark b 'O' :=
  countP_marks b cells

theorem markCount_runMoves (singlePlayer : Bool) (cell0 : Char) (moves : List Int) :
    markCount (runMoves (TicTacToe.TicTacToe singlePlayer cell0) moves).1.board =
      (runMoves (TicTacToe.TicTacToe singlePlayer cell0) moves).2.count true := by
  obtain ⟨hx, ho⟩ := counts_after_runMoves moves (TicTacToe.TicTacToe singlePlayer cell0)
  rw [markCount_eq, hx, ho, countMark_init singlePlayer cell0 'X' (Or.inl rfl),
    countMark_init singlePlayer cell0 'O' (Or.inr rfl), ← successful_length]
  simp only [TicTacToe.TicTacToe, if_true]
  omega

theorem mainLoop_ninth (inputs : List TurnInput) :
    ∀ (g : TicTacToe) (gameState : Int), checkGameState g.board = -1 →
      markCount (mainLoop g gameState inputs).1.board = 9 →
        (mainLoop g gameState inputs).2 = checkGameState (mainLoop g gameState inputs).1.board := by
  induction inputs with
  | nil =>
    intro g gameState h h9
    have := full_not_in_progress g.board h9
    rw [h] at this
    omega
  | cons input rest ih =>
    intro g gameState h
    unfold mainLoop
    split_ifs with hc h1 h2 h3 h4
    · exact ih _ _ h1
    · exact fun _ => rfl
    · have hm : makeMove g input.position = (false, g) := by
        rcases makeMove_result g input.position with ⟨_, hm⟩ | ⟨_, i, _, _, _, _, hm⟩
        · exact hm
        · rw [hm] at h2
          simp at h2
      rw [hm]
      exact ih g gameState h
    · intro h9
      have hm : makeMove g input.position = (false, g) := by
        rcases makeMove_result g input.position with ⟨_, hm⟩ | ⟨_, i, _, _, _, _, hm⟩
        · exact hm
        · rw [hm] at h2
          simp at h2
      rw [hm] at h9
      have := full_not_in_progress g.board h9
      rw [h] at this
      omega
    · exact ih _ _ h4
    · exact fun _ => rfl

/-- C19: of any sequence of `makeMove` calls on a freshly constructed game at
most 9 return true, the number of marked cells being the number of such calls;
once 9 have returned true the board is full and `checkGameState` returns 0 or 1,
not -1; and when the loop of `main` stops or pauses on a board with 9 marks, its
variable `gameState` holds that value, so the condition `gameState == -1` is
false. -/
theorem game_ends_in_nine (singlePlayer : Bool) (cell0 : Char) (moves : List Int)
    (choice gameState0 : Int) (inputs : List TurnInput) :
    (runMoves (TicTacToe.TicTacToe singlePlayer cell0) moves).2.count true ≤ 9 ∧
    markCount (runMoves (TicTacToe.TicTacToe singlePlayer cell0) moves).1.board =
      (runMoves (TicTacToe.TicTacToe singlePlayer cell0) moves).2.count true ∧
    ((runMoves (TicTacToe.TicTacToe singlePlayer cell0) moves).2.count true = 9 →
      isBoardFull (runMoves (TicTacToe.TicTacToe singlePlayer cell0) moves).1.board = true ∧
      (checkGameState (runMoves (TicTacToe.TicTacToe singlePlayer cell0) moves).1.board = 0 ∨
        checkGameState (runMoves (TicTacToe.TicTacToe singlePlayer cell0) moves).1.board = 1) ∧
      checkGameState (runMoves (TicTacToe.TicTacToe singlePlayer cell0) moves).1.board ≠ -1 ∧
      ∀ p : Int,
        (makeMove (runMoves (TicTacToe.TicTacToe singlePlayer cell0) moves).1 p).1 = false) ∧
    (markCount (loopState choice cell0 gameState0 inputs).board = 9 →
      ((mainLoop (TicTacToe.TicTacToe (choice == 1) cell0) gameState0 inputs).2 = 0 ∨
        (mainLoop (TicTacToe.TicTacToe (choice == 1) cell0) gameState0 inputs).2 = 1) ∧
      (mainLoop (TicTacToe.TicTacToe (choice == 1) cell0) gameState0 inputs).2 ≠ -1) := by
  have hcount := markCount_runMoves singlePlayer cell0 moves
  refine ⟨?_, hcount, ?_, ?_⟩
  · rw [← hcount]
    exact markCount_le _
  · intro h9
    rw [← hcount] at h9
    have hfull := (isBoardFull_iff _).2 h9
    have hval := full_not_in_progress _ h9
    refine ⟨hfull, hval.symm, ?_, ?_⟩
    · rcases hval with h | h <;> rw [h] <;> decide
    · intro p
      rcases makeMove_step (runMoves (TicTacToe.TicTacToe singlePlayer cell0) moves).1 p with
        hm | ⟨i, g1, _, _, hic, hmk, _, _, _, _⟩
      · rw [hm]
      · exfalso
        have hall := (List.countP_eq_length (l := cells)).1 (by rw [← markCount]; exact h9)
        have := hall i hic
        rw [hmk] at this
        exact Bool.noConfusion this
  · intro h9
    have hgs := mainLoop_ninth inputs (TicTacToe.TicTacToe (choice == 1) cell0) gameState0
      (init_in_progress _ cell0) h9
    have hval := full_not_in_progress _ h9
    rw [hgs]
    refine ⟨hval.symm, ?_⟩
    rcases hval with h | h <;> (unfold loopState at h; rw [h]; decide)

/-- Witness of C19: the nine calls 1, 2, 3, 5, 4, 6, 8, 7, 9 all return true, and
`checkGameState` then returns 0 or 1. -/
theorem game_ends_in_nine_witness :
    (runMoves (TicTacToe.TicTacToe false 'a') [1, 2, 3, 5, 4, 6, 8, 7, 9]).2.count true = 9 ∧
    (checkGameState (runMoves (TicTacToe.TicTacToe false 'a')
        [1, 2, 3, 5, 4, 6, 8, 7, 9]).1.board = 0 ∨
      checkGameState (runMoves (TicTacToe.TicTacToe false 'a')
        [1, 2, 3, 5, 4, 6, 8, 7, 9]).1.board = 1) :=
  ⟨by decide,
    ((game_ends_in_nine false 'a' [1, 2, 3, 5, 4, 6, 8, 7, 9] 2 0 []).2.2.1 (by decide)).2.1⟩

/-! ## Cell 0 is never read -/

theorem isValidMove_congr (b1 b2 : Board) (h : ∀ i ∈ cells, b1 i = b2 i) (p : Int) :
    isValidMove b1 p = isValidMove b2 p := by
  rw [Bool.eq_iff_iff, isValidMove_iff_cells, isValidMove_iff_cells]
  constructor
  · rintro ⟨i, hi, hp, hm⟩
    exact ⟨i, hi, hp, by rw [← h i hi]; exact hm⟩
  · rintro ⟨i, hi, hp, hm⟩
    exact ⟨i, hi, hp, by rw [h i hi]; exact hm⟩

theorem set_congr (b1 b2 : Board) (h : ∀ i ∈ cells, b1 i = b2 i) (k : Fin 10) (c : Char) :
    ∀ i ∈ cells, b1.set k c i = b2.set k c i := by
  intro i hi
  by_cases hik : i = k
  · rw [hik, set_same, set_same]
  · rw [set_other _ _ _ _ hik, set_other _ _ _ _ hik]
    exact h i hi

theorem lineHolds_congr (b1 b2 : Board) (h : ∀ i ∈ cells, b1 i = b2 i) (m : Char)
    (l : Fin 10 × Fin 10 × Fin 10) (hl : l ∈ lines) : lineHolds b1 m l = lineHolds b2 m l := by
  obtain ⟨h1, h2, h3, _, _, _⟩ := lines_distinct l hl
  unfold lineHolds
  rw [h _ ((mem_cells _).2 h1), h _ ((mem_cells _).2 h2), h _ ((mem_cells _).2 h3)]

theorem completeLine_congr (b1 b2 : Board) (h : ∀ i ∈ cells, b1 i = b2 i) (m : Char) :
    completeLine b1 m = completeLine b2 m := by
  rw [Bool.eq_iff_iff]
  simp only [completeLine, List.any_eq_true]
  constructor
  · rintro ⟨l, hl, hh⟩
    exact ⟨l, hl, by rw [← lineHolds_congr b1 b2 h m l hl]; exact hh⟩
  · rintro ⟨l, hl, hh⟩
    exact ⟨l, hl, by rw [lineHolds_congr b1 b2 h m l hl]; exact hh⟩

theorem isWinningMove_congr (b1 b2 : Board) (h : ∀ i ∈ cells, b1 i = b2 i) (m : Char)
    (p : Int) : isWinningMove b1 m p = isWinningMove b2 m p := by
  rw [Bool.eq_iff_iff, isWinningMove_iff, isWinningMove_iff]
  constructor
  · rintro ⟨i, hi, hv, hw⟩
    exact ⟨i, hi, by rw [← isValidMove_congr b1 b2 h p]; exact hv,
      by rw [← completeLine_congr _ _ (set_congr b1 b2 h i m) m]; exact hw⟩
  · rintro ⟨i, hi, hv, hw⟩
    exact ⟨i, hi, by rw [isValidMove_congr b1 b2 h p]; exact hv,
      by rw [completeLine_congr _ _ (set_congr b1 b2 h i m) m]; exact hw⟩

theorem getComputerMove_congr (b1 b2 : Board) (h : ∀ i ∈ cells, b1 i = b2 i)
    (corners sides : List Int) :
    getComputerMove b1 corners sides = getComputerMove b2 corners sides := by
  have hw : ∀ m : Char, (fun i => isWinningMove b1 m i) = (fun i => isWinningMove b2 m i) :=
    fun m => funext (fun i => isWinningMove_congr b1 b2 h m i)
  have hv : (fun x => isValidMove b1 x) = (fun x => isValidMove b2 x) :=
    funext (fun x => isValidMove_congr b1 b2 h x)
  unfold getComputerMove
  rw [hw PLAYER2_MARK, hw PLAYER1_MARK, hv, isValidMove_congr b1 b2 h 5]

theorem checkGameState_congr (b1 b2 : Board) (h : ∀ i ∈ cells, b1 i = b2 i) :
    checkGameState b1 = checkGameState b2 := by
  have h1 := h 1 (by decide)
  have h2 := h 2 (by decide)
  have h3 := h 3 (by decide)
  have h4 := h 4 (by decide)
  have h5 := h 5 (by decide)
  have h6 := h 6 (by decide)
  have h7 := h 7 (by decide)
  have h8 := h 8 (by decide)
  have h9 := h 9 (by decide)
  simp only [checkGameState, checkLine, isBoardFull, List.all_cons, List.all_nil, h1, h2, h3,
    h4, h5, h6, h7, h8, h9]

theorem countMark_congr (b1 b2 : Board) (h : ∀ i ∈ cells, b1 i = b2 i) (m : Char) :
    countMark b1 m = countMark b2 m := by
  unfold countMark
  apply List.countP_congr
  intro i hi
  rw [h i hi]

theorem makeMove_congr (g1 g2 : TicTacToe) (h : SameGame g1 g2) (p : Int) :
    (makeMove g1 p).1 = (makeMove g2 p).1 ∧ SameGame (makeMove g1 p).2 (makeMove g2 p).2 := by
  obtain ⟨hb, ht, hsp⟩ := h
  have hv := isValidMove_congr g1.board g2.board hb p
  rcases makeMove_result g1 p with ⟨hv1, hm1⟩ | ⟨hv1, i, hi, _, _, _, hm1⟩
  · rw [hm1, makeMove_invalid g2 p (by rw [← hv]; exact hv1)]
    exact ⟨rfl, hb, ht, hsp⟩
  · rw [hm1, makeMove_valid g2 p i hi (by rw [← hv]; exact hv1)]
    refine ⟨rfl, ?_, ?_, hsp⟩
    · show ∀ k ∈ cells, (g1.board.set i _) k = (g2.board.set i _) k
      rw [ht]
      exact set_congr g1.board g2.board hb i _
    · show (!g1.isPlayer1Turn) = (!g2.isPlayer1Turn)
      rw [ht]

theorem makeComputerMove_congr (g1 g2 : TicTacToe) (h : SameGame g1 g2)
    (corners sides : List Int) :
    SameGame (makeComputerMove g1 corners sides) (makeComputerMove g2 corners sides) := by
  rw [makeComputerMove_eq, makeComputerMove_eq, getComputerMove_congr g1.board g2.board h.1]
  exact (makeMove_congr g1 g2 h _).2

theorem mainLoop_congr (inputs : List TurnInput) :
    ∀ (g1 g2 : TicTacToe) (gameState : Int), SameGame g1 g2 →
      (mainLoop g1 gameState inputs).2 = (mainLoop g2 gameState inputs).2 ∧
      SameGame (mainLoop g1 gameState inputs).1 (mainLoop g2 gameState inputs).1 := by
  induction inputs with
  | nil =>
    intro g1 g2 gameState h
    exact ⟨rfl, h⟩
  | cons input rest ih =>
    intro g1 g2 gameState h
    have hturn : isComputerTurn g1 = isComputerTurn g2 := by
      unfold isComputerTurn
      rw [h.2.1, h.2.2]
    have hcm := makeComputerMove_congr g1 g2 h input.corners input.sides
    have hcc := checkGameState_congr _ _ hcm.1
    obtain ⟨hr, hmm⟩ := makeMove_congr g1 g2 h input.position
    have hmc := checkGameState_congr _ _ hmm.1
    unfold mainLoop
    rw [hturn, hcc, hr, hmc]
    split_ifs
    · exact ih _ _ _ hcm
    · exact ⟨rfl, hcm⟩
    · exact ih _ _ _ hmm
    · exact ⟨rfl, hmm⟩
    · exact ih _ _ _ hmm
    · exact ⟨rfl, hmm⟩

theorem mainLoop_first_accepted (g : TicTacToe) (gameState : Int) (input : TurnInput)
    (rest : List TurnInput) (h1 : isComputerTurn g = false)
    (h2 : (makeMove g input.position).1 = true) :
    mainLoop g gameState (input :: rest) = mainLoop g 0 (input :: rest) := by
  simp [mainLoop, h1, h2]

theorem sameGame_init (singlePlayer : Bool) (c1 c2 : Char) :
    SameGame (TicTacToe.TicTacToe singlePlayer c1) (TicTacToe.TicTacToe singlePlayer c2) := by
  refine ⟨?_, rfl, rfl⟩
  intro i hi
  rw [init_cell singlePlayer c1 i ((mem_cells i).1 hi),
    init_cell singlePlayer c2 i ((mem_cells i).1 hi)]

/-- C17: the heuristic can lose.  In the single-player game in which the human
plays 1, 9, 7 and 8 and the shuffles leave the corners as 3, 7, 1, 9, with every
computer move chosen by `getComputerMove` and applied through `makeMove` by the
loop of `main` (the computer answers 5, 3 and 4), the loop stops with `gameState`
1 on a board with four `'X'` and three `'O'`, a complete `'X'` line, no complete
`'O'` line, and `main` prints `You win!`; whatever cell 0 and the uninitialised
`gameState` held. -/
theorem heuristic_can_lose :
    ∃ inputs : List TurnInput,
      (∀ input ∈ inputs, input.corners.Perm [1, 3, 7, 9] ∧ input.sides.Perm [2, 4, 6, 8]) ∧
      inputs.map (fun input => input.position) = [1, 0, 9, 0, 7, 0, 8] ∧
      ∀ (cell0 : Char) (gameState0 : Int),
        (mainLoop (TicTacToe.TicTacToe true cell0) gameState0 inputs).2 = 1 ∧
        checkGameState (mainLoop (TicTacToe.TicTacToe true cell0) gameState0 inputs).1.board = 1 ∧
        completeLine (mainLoop (TicTacToe.TicTacToe true cell0) gameState0 inputs).1.board 'X'
          = true ∧
        completeLine (mainLoop (TicTacToe.TicTacToe true cell0) gameState0 inputs).1.board 'O'
          = false ∧
        countMark (mainLoop (TicTacToe.TicTacToe true cell0) gameState0 inputs).1.board 'X' = 4 ∧
        countMark (mainLoop (TicTacToe.TicTacToe true cell0) gameState0 inputs).1.board 'O' = 3 ∧
        announce 1 (mainLoop (TicTacToe.TicTacToe true cell0) gameState0 inputs).1
          (mainLoop (TicTacToe.TicTacToe true cell0) gameState0 inputs).2 =
            Announcement.youWin := by
  refine ⟨losingInputs, by decide, by decide, ?_⟩
  intro cell0 gameState0
  have hfirst : mainLoop (TicTacToe.TicTacToe true cell0) gameState0 losingInputs =
      mainLoop (TicTacToe.TicTacToe true cell0) 0 losingInputs := by
    apply mainLoop_first_accepted
    · simp [isComputerTurn, TicTacToe.TicTacToe]
    · rcases makeMove_result (TicTacToe.TicTacToe true cell0) 1 with ⟨hv, _⟩ | ⟨_, i, _, _, _, _, hm⟩
      · rw [init_valid true cell0 1 (by decide) (by decide)] at hv
        exact Bool.noConfusion hv
      · show (makeMove (TicTacToe.TicTacToe true cell0) 1).1 = true
        rw [hm]
  obtain ⟨hgs, hb, ht, _⟩ := mainLoop_congr losingInputs (TicTacToe.TicTacToe true cell0)
    (TicTacToe.TicTacToe true 'a') 0 (sameGame_init true cell0 'a')
  rw [hfirst, hgs, checkGameState_congr _ _ hb, completeLine_congr _ _ hb 'X',
    completeLine_congr _ _ hb 'O', countMark_congr _ _ hb 'X', countMark_congr _ _ hb 'O']
  refine ⟨by decide, by decide, by decide, by decide, by decide, by decide, ?_⟩
  have hc : getCurrentPlayer (mainLoop (TicTacToe.TicTacToe true cell0) 0 losingInputs).1 =
      getCurrentPlayer (mainLoop (TicTacToe.TicTacToe true 'a') 0 losingInputs).1 := by
    unfold getCurrentPlayer
    rw [ht]
  unfold announce
  rw [hc]
  decide

end TicTacToeGame
